import Mathlib

/-!
Verification of the conversation-orchestration core of the `ai_router`
repository against its natural-language specification.

The Python sources are shallowly embedded: strings become `List Char`,
SQLAlchemy rows become structures, database queries become list
operations, and the mutable handler state becomes explicit input/output
records.  Every definition is translated from the source file named in
its doc comment; the few pieces of the repository that are referenced by
the sources but whose defining module is absent from the checkout
(`Dialog.close`, `SettingsService.get_int`) are modelled from the spec
and marked as such.
-/

namespace AiRouter

/-! ## Python string primitives

`str.strip` / `lstrip` / `rstrip` with no argument drop the Python
whitespace characters; `str.split()` splits on runs of them. -/

/-- The ASCII whitespace characters stripped by Python's `str.strip()`
family (space, tab, newline, carriage return, vertical tab, form feed). -/
def pySpace (c : Char) : Bool :=
  c = ' ' || c = '\t' || c = '\n' || c = '\r' || c = '\x0b' || c = '\x0c'

/-- Python `s.lstrip()` on a character list. -/
def lstripL (s : List Char) : List Char := s.dropWhile pySpace

/-- Python `s.rstrip()` on a character list. -/
def rstripL (s : List Char) : List Char := (s.reverse.dropWhile pySpace).reverse

/-- Python `s.strip()` on a character list. -/
def stripL (s : List Char) : List Char := rstripL (lstripL s)

/-- Dropping a whitespace prefix never lengthens a list. -/
theorem dropWhile_length_le (p : Char → Bool) :
    ∀ l : List Char, (l.dropWhile p).length ≤ l.length := by
  intro l
  induction l with
  | nil => simp [List.dropWhile]
  | cons c rest ih =>
    by_cases h : p c
    · simp [List.dropWhile, h]
      omega
    · simp [List.dropWhile, h]

/-- Python `str.split()` (no separator): split on runs of whitespace,
discarding empty pieces. -/
def pySplit : List Char → List (List Char)
  | [] => []
  | c :: rest =>
    if pySpace c then pySplit rest
    else
      let word := (c :: rest).takeWhile (fun d => !pySpace d)
      let tail := (c :: rest).dropWhile (fun d => !pySpace d)
      word :: pySplit tail
  termination_by s => s.length
  decreasing_by
    · simp
    · simp only [List.dropWhile]
      have h := dropWhile_length_le (fun d => !pySpace d) rest
      simp_all
      omega

/-- Python `" ".join(s.split())`: whitespace normalization used for
dialog titles. -/
def normalizeWs (s : List Char) : List Char :=
  List.intercalate [' '] (pySplit s)

/-! ## `MessageLog.register_response` (src/app/models/message.py)

The token arguments arrive from provider code as `int` or `None`;
`int(x or 0)` maps `None` and `0` to `0`, and `max(·, 0)` clamps
negatives. -/

/-- A row of the `message_logs` table (src/app/models/message.py). -/
structure MsgLog where
  messageIndex : Nat
  userMessage : List Char
  llmResponse : Option (List Char) := none
  modelId : Option Nat := none
  tokensUsed : Int := 0
  promptTokens : Int := 0
  completionTokens : Int := 0
  assistantMessageId : Option Int := none
  deriving Repr, DecidableEq

/-- Python `int(x or 0)` for `x : Option Int`: `None` and `0` are falsy. -/
def intOrZero (x : Option Int) : Int :=
  match x with
  | none => 0
  | some v => v

/-- `MessageLog.register_response` (src/app/models/message.py, lines
33-53): stores the response text and clamps both token counts to be
non-negative before summing them into `tokens_used`. -/
def registerResponse (log : MsgLog) (responseText : List Char)
    (promptTokens completionTokens : Option Int) : MsgLog :=
  let safePrompt := max (intOrZero promptTokens) 0
  let safeCompletion := max (intOrZero completionTokens) 0
  { log with
    llmResponse := some responseText
    promptTokens := safePrompt
    completionTokens := safeCompletion
    tokensUsed := safePrompt + safeCompletion }

/-! ## `OpenAIProviderClient` think-tag stripping
(src/app/services/providers/openai_provider.py)

`_strip_think_tags` is `re.sub(r"(?is)<think>.*?</think>", "", text or
"").strip()`.  `re.sub` scans the string left to right; a match starts at
the leftmost position where `<think>` (case-insensitive) occurs and is
followed by a later `</think>`, ends at the earliest such `</think>`
(lazy `.*?`, with `(?s)` letting `.` cross newlines), and scanning
resumes after the removed match. -/

/-- ASCII lower-casing as applied by the `(?i)` regex flag to the ASCII
tag literals. -/
def asciiLower (c : Char) : Char :=
  if 65 ≤ c.toNat ∧ c.toNat ≤ 90 then Char.ofNat (c.toNat + 32) else c

/-- The literal `<think>` opening tag. -/
def openTag : List Char := ['<', 't', 'h', 'i', 'n', 'k', '>']

/-- The literal `</think>` closing tag. -/
def closeTag : List Char := ['<', '/', 't', 'h', 'i', 'n', 'k', '>']

/-- Does `s` start with the given (lower-case) tag, compared
case-insensitively? -/
def startsWithCI (tag s : List Char) : Bool :=
  (s.take tag.length).map asciiLower = tag

/-- Advance to just past the earliest case-insensitive `</think>` in
`s`, or `none` when there is no closing tag (lazy `.*?</think>`). -/
def dropToClose : List Char → Option (List Char)
  | [] => none
  | c :: rest =>
    if startsWithCI closeTag (c :: rest) then some ((c :: rest).drop 8)
    else dropToClose rest

/-- `dropToClose` strictly shrinks the text. -/
theorem dropToClose_length {s t : List Char} (h : dropToClose s = some t) :
    t.length < s.length := by
  induction s with
  | nil => simp [dropToClose] at h
  | cons c rest ih =>
    simp only [dropToClose] at h
    by_cases hm : startsWithCI closeTag (c :: rest)
    · simp [hm] at h
      subst h
      simp
      omega
    · simp [hm] at h
      have := ih h
      simp
      omega

/-- One pass of `re.sub(r"(?is)<think>.*?</think>", "", ·)`: remove every
leftmost-lazy match, resuming the scan after each removal. -/
def removeThinkBlocks : List Char → List Char
  | [] => []
  | c :: rest =>
    if startsWithCI openTag (c :: rest) then
      match hm : dropToClose ((c :: rest).drop 7) with
      | some tail => removeThinkBlocks tail
      | none => c :: removeThinkBlocks rest
    else c :: removeThinkBlocks rest
  termination_by s => s.length
  decreasing_by
    · have h1 := dropToClose_length hm
      have h2 : ((c :: rest).drop 7).length ≤ rest.length := by
        simp
      simp at h1 ⊢
      omega
    · simp
    · simp

/-- `OpenAIProviderClient._strip_think_tags`
(src/app/services/providers/openai_provider.py, lines 65-69):
`re.sub(r"(?is)<think>.*?</think>", "", text or "").strip()`. -/
def stripThinkTags (text : Option (List Char)) : List Char :=
  stripL (removeThinkBlocks (text.getD []))

/-- `choices[0]["message"].get("content")` of an OpenAI chat response. -/
structure OaiChoice where
  content : Option (List Char)
  deriving Repr, DecidableEq

/-- The `usage` object of an OpenAI chat response. -/
structure OaiUsage where
  totalTokens : Option Int := none
  completionTokens : Option Int := none
  deriving Repr, DecidableEq

/-- The parts of an OpenAI chat-completions response read by
`extract_message`. -/
structure OaiData where
  choices : List OaiChoice
  usage : OaiUsage := {}
  deriving Repr, DecidableEq

/-- `OpenAIProviderClient.extract_message`
(src/app/services/providers/openai_provider.py, lines 51-63): fails when
`choices` is empty, otherwise strips think tags from the first choice's
content and reads `usage.get("total_tokens", usage.get("completion_tokens",
0))`.  The returned pair is the message text that is both logged and
returned, together with the token count passed to the log row. -/
def extractMessage (d : OaiData) : Except Unit (List Char × Int) :=
  match d.choices with
  | [] => .error ()
  | first :: _ =>
    let message := stripThinkTags first.content
    let tokens := d.usage.totalTokens.getD (d.usage.completionTokens.getD 0)
    .ok (message, tokens)

/-! ### Think-tag removal lemmas -/

/-- Lower-casing a character other than `<` never yields `<`. -/
theorem asciiLower_eq_lt {c : Char} (h : asciiLower c = '<') : c = '<' := by
  unfold asciiLower at h
  split at h
  · exfalso
    rename_i hc
    have hv : (c.toNat + 32).isValidChar := by
      left
      omega
    have ht : (Char.ofNat (c.toNat + 32)).toNat = c.toNat + 32 := by
      simp only [Char.ofNat]
      rw [dif_pos hv]
      rfl
    rw [h] at ht
    have : ('<').toNat = 60 := by decide
    omega
  · exact h

/-- A case-insensitive `</think>` match forces a literal `<` first. -/
theorem startsWithCI_close_head {c : Char} {s : List Char}
    (h : startsWithCI closeTag (c :: s) = true) : c = '<' := by
  simp only [startsWithCI, closeTag, decide_eq_true_eq] at h
  have : asciiLower c = '<' := by
    simpa using congrArg (fun l => l.headI) h
  exact asciiLower_eq_lt this

/-- A case-insensitive `<think>` match forces a literal `<` first. -/
theorem startsWithCI_open_head {c : Char} {s : List Char}
    (h : startsWithCI openTag (c :: s) = true) : c = '<' := by
  simp only [startsWithCI, openTag, decide_eq_true_eq] at h
  have : asciiLower c = '<' := by
    simpa using congrArg (fun l => l.headI) h
  exact asciiLower_eq_lt this

/-- Case-insensitive equality of a candidate tag with a tag literal. -/
abbrev ciEq (s tag : List Char) : Prop := s.map asciiLower = tag

/-- `dropToClose` runs through a `<`-free body and stops exactly after a
case-insensitive `</think>`. -/
theorem dropToClose_body (body : List Char) (hb : ∀ c ∈ body, c ≠ '<')
    (closeCase tail : List Char) (hc : ciEq closeCase closeTag) :
    dropToClose (body ++ closeCase ++ tail) = some tail := by
  induction body with
  | nil =>
    have hlen : closeCase.length = 8 := by
      have := congrArg List.length hc
      simpa [closeTag] using this
    cases closeCase with
    | nil => simp at hlen
    | cons c cc =>
      have hsw : startsWithCI closeTag ((c :: cc) ++ tail) = true := by
        simp only [startsWithCI, decide_eq_true_eq]
        have htake : ((c :: cc) ++ tail).take closeTag.length = c :: cc := by
          have : closeTag.length = (c :: cc).length := by
            simp [closeTag]
            simpa [closeTag] using hlen.symm
          rw [this]
          exact List.take_left _ _
        rw [htake]
        exact hc
      have hdrop : ((c :: cc) ++ tail).drop 8 = tail := by
        have : (c :: cc).length = 8 := hlen
        calc ((c :: cc) ++ tail).drop 8 = ((c :: cc) ++ tail).drop (c :: cc).length := by
              rw [this]
          _ = tail := List.drop_left _ _
      simp only [List.nil_append]
      cases cc with
      | nil => simp [closeTag] at hlen
      | cons c2 cc2 =>
        simp only [dropToClose, List.cons_append]
        rw [if_pos]
        · simp only [Option.some.injEq]
          simpa using hdrop
        · simpa using hsw
  | cons c body' ih =>
    have hcne : c ≠ '<' := hb c (by simp)
    have hb' : ∀ x ∈ body', x ≠ '<' := fun x hx => hb x (by simp [hx])
    have hsw : startsWithCI closeTag (c :: (body' ++ closeCase ++ tail)) = false := by
      by_contra hcon
      have : startsWithCI closeTag (c :: (body' ++ closeCase ++ tail)) = true := by
        simpa using hcon
      exact hcne (startsWithCI_close_head this)
    simp only [List.cons_append, dropToClose, List.append_assoc] at *
    rw [if_neg]
    · simpa using ih hb'
    · simp [hsw]

/-- `removeThinkBlocks` copies a `<`-free prefix verbatim. -/
theorem removeThinkBlocks_plain (plain : List Char)
    (hp : ∀ c ∈ plain, c ≠ '<') (rest : List Char) :
    removeThinkBlocks (plain ++ rest) = plain ++ removeThinkBlocks rest := by
  induction plain with
  | nil => simp
  | cons c plain' ih =>
    have hcne : c ≠ '<' := hp c (by simp)
    have hp' : ∀ x ∈ plain', x ≠ '<' := fun x hx => hp x (by simp [hx])
    have hsw : ¬ startsWithCI openTag (c :: (plain' ++ rest)) = true := by
      intro hcon
      exact hcne (startsWithCI_open_head hcon)
    simp only [List.cons_append, removeThinkBlocks]
    rw [if_neg (by simpa using hsw)]
    simp [ih hp']

/-- `removeThinkBlocks` deletes a complete case-insensitive think block
at the head of the text and resumes after it. -/
theorem removeThinkBlocks_block (openCase body closeCase rest : List Char)
    (ho : ciEq openCase openTag) (hb : ∀ c ∈ body, c ≠ '<')
    (hc : ciEq closeCase closeTag) :
    removeThinkBlocks (openCase ++ body ++ closeCase ++ rest) =
      removeThinkBlocks rest := by
  have holen : openCase.length = 7 := by
    have := congrArg List.length ho
    simpa [openTag] using this
  cases openCase with
  | nil => simp at holen
  | cons o oc =>
    have hsw : startsWithCI openTag ((o :: oc) ++ (body ++ closeCase ++ rest)) = true := by
      simp only [startsWithCI, decide_eq_true_eq]
      have htake : ((o :: oc) ++ (body ++ closeCase ++ rest)).take openTag.length
          = o :: oc := by
        have hlen2 : openTag.length = (o :: oc).length := by
          simp [openTag]
          simpa [openTag] using holen.symm
        rw [hlen2]
        exact List.take_left _ _
      rw [htake]
      exact ho
    have hdrop7 : ((o :: oc) ++ (body ++ closeCase ++ rest)).drop 7
        = body ++ closeCase ++ rest := by
      have : (o :: oc).length = 7 := holen
      calc ((o :: oc) ++ (body ++ closeCase ++ rest)).drop 7
          = ((o :: oc) ++ (body ++ closeCase ++ rest)).drop (o :: oc).length := by rw [this]
        _ = body ++ closeCase ++ rest := List.drop_left _ _
    have hclose : dropToClose (body ++ closeCase ++ rest) = some rest :=
      dropToClose_body body hb closeCase rest hc
    cases oc with
    | nil => simp [openTag] at holen
    | cons o2 oc2 =>
      have hgoal : (o :: o2 :: oc2) ++ body ++ closeCase ++ rest
          = o :: (o2 :: oc2 ++ (body ++ closeCase ++ rest)) := by
        simp
      rw [hgoal]
      have hdrop' : dropToClose ((o :: (o2 :: oc2 ++ (body ++ closeCase ++ rest))).drop 7)
          = some rest := by
        rw [show (o :: (o2 :: oc2 ++ (body ++ closeCase ++ rest)))
            = (o :: o2 :: oc2) ++ (body ++ closeCase ++ rest) by simp]
        rw [hdrop7]
        exact hclose
      simp only [removeThinkBlocks]
      rw [if_pos (by simpa [List.append_assoc] using hsw)]
      split
      · rename_i tail htail
        rw [hdrop'] at htail
        cases htail
        rfl
      · rename_i htail
        rw [hdrop'] at htail
        cases htail

/-- A segment of a provider reply: literal text or a complete
`<think>` block. -/
inductive ThinkItem where
  | plain (s : List Char)
  | block (openCase body closeCase : List Char)

/-- The raw text a `ThinkItem` contributes to the reply. -/
def renderItem : ThinkItem → List Char
  | .plain s => s
  | .block o b c => o ++ b ++ c

/-- The text a `ThinkItem` contributes after think-block removal. -/
def plainText : ThinkItem → List Char
  | .plain s => s
  | .block _ _ _ => []

/-- Well-formedness: literal text contains no `<` (so no tag can start
inside it), and a block is a case-insensitive `<think>` tag, a `<`-free
body (newlines allowed), and a case-insensitive `</think>` tag. -/
def wellFormedItem : ThinkItem → Prop
  | .plain s => ∀ c ∈ s, c ≠ '<'
  | .block o b c => ciEq o openTag ∧ (∀ x ∈ b, x ≠ '<') ∧ ciEq c closeTag

/-- A reply assembled from segments. -/
def renderItems (items : List ThinkItem) : List Char :=
  (items.map renderItem).flatten

/-- Removing think blocks from an assembled reply leaves exactly the
literal segments. -/
theorem removeThinkBlocks_renderItems (items : List ThinkItem)
    (hwf : ∀ it ∈ items, wellFormedItem it) :
    removeThinkBlocks (renderItems items) = (items.map plainText).flatten := by
  induction items with
  | nil => simp [renderItems, removeThinkBlocks]
  | cons it items' ih =>
    have hit : wellFormedItem it := hwf it (by simp)
    have hwf' : ∀ x ∈ items', wellFormedItem x := fun x hx => hwf x (by simp [hx])
    cases it with
    | plain s =>
      have hstep := removeThinkBlocks_plain s hit (renderItems items')
      simp only [renderItems, List.map_cons, List.flatten_cons, renderItem] at *
      rw [hstep, ih hwf']
      simp [plainText]
    | block o b c =>
      obtain ⟨ho, hb, hc⟩ := hit
      have hstep := removeThinkBlocks_block o b c (renderItems items') ho hb hc
      simp only [renderItems, List.map_cons, List.flatten_cons, renderItem] at *
      rw [show (o ++ b ++ c) ++ (items'.map renderItem).flatten
          = o ++ b ++ c ++ (items'.map renderItem).flatten by simp]
      rw [hstep, ih hwf']
      simp [plainText]

/-! ## Model selection (src/app/bot/dialog_management.py, `_get_model_config`)

`ModelConfig` rows come from src/app/models/model_config.py; the
`active_model_id` setting value is read with `self._settings.get`. -/

/-- The columns of `model_configs` used by selection and budgeting
(src/app/models/model_config.py). -/
structure ModelCfg where
  id : Nat
  isDefault : Bool := false
  dialogTokenLimit : Int := 20000
  deriving Repr, DecidableEq

/-- Value of a digit run, or `none` when empty or not all digits. -/
def digitsVal (ds : List Char) : Option Nat :=
  if ds = [] then none
  else if ds.all (fun c => c.isDigit) then
    some (ds.foldl (fun a c => a * 10 + (c.toNat - 48)) 0)
  else none

/-- Python `int(s)` on a decimal string: optional surrounding
whitespace, optional sign, digits; `none` models `ValueError`. -/
def pyInt (s : List Char) : Option Int :=
  match stripL s with
  | '-' :: ds => (digitsVal ds).map (fun n => -(n : Int))
  | '+' :: ds => (digitsVal ds).map (fun n => (n : Int))
  | ds => (digitsVal ds).map (fun n => (n : Int))

/-- The model-selection core of `DialogManagementMixin._get_model_config`
(src/app/bot/dialog_management.py, lines 318-337): when the
`active_model_id` setting is truthy, parse it and look the id up (a
parse failure or unknown id leaves `model = None`); only when the
setting is falsy is the first `is_default` config consulted; any `None`
then falls back to the first config, and `none` here models the
`RuntimeError` raised when no config exists. -/
def getModelConfig (models : List ModelCfg)
    (activeModelId : Option (List Char)) : Option ModelCfg :=
  let fromSetting : Option ModelCfg :=
    match activeModelId with
    | some s =>
      if s ≠ [] then
        match pyInt s with
        | some mid => models.find? (fun m => (m.id : Int) = mid)
        | none => none
      else models.find? (·.isDefault)
    | none => models.find? (·.isDefault)
  match fromSetting with
  | some m => some m
  | none => models.head?

/-- Two configs: the first not default, the second default. -/
def demoModels : List ModelCfg :=
  [{ id := 1, isDefault := false }, { id := 2, isDefault := true }]

/-! ## OpenAI endpoint selection and request dispatch
(src/app/services/openai_service.py)

`send_chat_request` picks one endpoint and performs one HTTP POST;
`_perform_request` turns any `requests.RequestException` — including
the `HTTPError` that `raise_for_status()` raises on a 4xx/5xx status —
into a `RuntimeError`. -/

/-- The two OpenAI endpoints. -/
inductive Endpoint where
  | chat
  | responses
  deriving Repr, DecidableEq

/-- The slice of the model-config dict read by endpoint selection. -/
structure OaiModelConfig where
  endpoint : Option (List Char) := none
  model : List Char
  deriving Repr, DecidableEq

/-- The model-name prefixes routed to `/v1/responses`
(src/app/services/openai_service.py, lines 98-106). -/
def responsesPrefixes : List (List Char) :=
  ["o1".toList, "o3".toList, "o4".toList, "gpt-4.1".toList, "gpt-4o".toList,
   "gpt-5".toList, "chatgpt-4o".toList]

/-- `OpenAIService._pick_endpoint_for_model`
(src/app/services/openai_service.py, lines 91-110): an explicit
`endpoint` field of `"chat"` or `"responses"` wins; otherwise the
lower-cased model name is prefix-matched against the known list. -/
def pickEndpointForModel (cfg : OaiModelConfig) : Endpoint :=
  match cfg.endpoint with
  | some e =>
    if e = "chat".toList then .chat
    else if e = "responses".toList then .responses
    else pickByPrefix cfg
  | none => pickByPrefix cfg
where
  /-- The prefix-inference fallback of `_pick_endpoint_for_model`. -/
  pickByPrefix (cfg : OaiModelConfig) : Endpoint :=
    let normalized := cfg.model.map asciiLower
    if responsesPrefixes.any (fun p => normalized.take p.length = p) then .responses
    else .chat

/-- Outcome of one HTTP POST: a decoded JSON body, or a status-code
failure whose error payload text the service only logs. -/
inductive HttpOutcome where
  | success (body : List Char)
  | failure (status : Nat) (errorBody : List Char)
  deriving Repr, DecidableEq

/-- `OpenAIService._perform_request`
(src/app/services/openai_service.py, lines 168-193): performs one POST;
`raise_for_status()` turns any 4xx/5xx reply into a raised
`RuntimeError` (no inspection of the payload, no second request). -/
def performRequest (http : Endpoint → HttpOutcome) (e : Endpoint) :
    Except Unit (List Char) :=
  match http e with
  | .success body => .ok body
  | .failure status errorBody =>
    if 400 ≤ status then .error () else .ok errorBody

/-- `OpenAIService.send_chat_request`
(src/app/services/openai_service.py, lines 28-51): picks the endpoint
for the model and performs exactly one request against it.  The second
component records every endpoint actually contacted, in order. -/
def sendChatRequest (http : Endpoint → HttpOutcome) (cfg : OaiModelConfig) :
    Except Unit (List Char) × List Endpoint :=
  let e := pickEndpointForModel cfg
  (performRequest http e, [e])

/-! ## Bot lifecycle stop (src/app/bot/bot_service.py)

`stop(timeout, max_wait)` signals the stop event, asks the bot to stop
polling, then joins the worker in a loop.  The worker thread is
abstracted as a predicate `alive : Nat → Bool` giving its liveness
after a number of completed `join` calls; wall-clock times are modelled
as rationals relative to `wait_started`. -/

/-- How the `while thread.is_alive()` join loop of `stop`
(src/app/bot/bot_service.py, lines 100-114) ends within a given number
of iterations. -/
inductive StopLoopResult where
  | exited (joins : Nat)
  | broke (joins : Nat)
  | running (joins : Nat)
  deriving Repr, DecidableEq

/-- The join loop of `stop`: on each pass, if the thread is alive, a
deadline (present only when `max_wait` was given) may break out;
otherwise the thread is joined for `min interval remaining` (or plain
`interval` with no deadline) and time advances.  `fuel` bounds the
number of modelled iterations; `.running` means the loop was still
going after that many joins. -/
def stopJoinLoop (fuel : Nat) (alive : Nat → Bool) (interval : ℚ)
    (deadline : Option ℚ) (now : ℚ) (joins : Nat) : StopLoopResult :=
  match fuel with
  | 0 => .running joins
  | fuel' + 1 =>
    if alive joins then
      match deadline with
      | some d =>
        if d - now ≤ 0 then .broke joins
        else
          stopJoinLoop fuel' alive interval deadline
            (now + min interval (d - now)) (joins + 1)
      | none => stopJoinLoop fuel' alive interval deadline (now + interval) (joins + 1)
    else .exited joins

/-- The lifecycle state touched by `stop`: the polling-thread handle
(with its liveness abstraction), the stop event, and the bot handle. -/
structure LifecycleState where
  thread : Option (Nat → Bool)
  stopEventSet : Bool
  botSet : Bool

/-- `BotLifecycleMixin._cleanup_completed_polling_thread`
(src/app/bot/bot_service.py, lines 222-233): resets the handle, the
stop event and the bot only when a thread handle exists and the thread
is no longer alive. -/
def cleanupCompletedPollingThread (st : LifecycleState) (joins : Nat) :
    LifecycleState :=
  match st.thread with
  | none => st
  | some alive =>
    if alive joins then st
    else { thread := none, stopEventSet := false, botSet := false }

/-- Result of a `stop` call. -/
inductive StopOutcome where
  | raised (st : LifecycleState)
  | returned (st : LifecycleState)
  | stillJoining

/-- `BotLifecycleMixin.stop` (src/app/bot/bot_service.py, lines
72-129): sets the stop event, joins a live worker with interval
`max(timeout, 0.1)` against a deadline of `max(max_wait, 0)` only when
`max_wait` was passed, raises `PollingStopTimeoutError` (leaving the
handle, event and bot as they are) when the loop breaks with the thread
alive, and otherwise runs the completed-thread cleanup. -/
def stopModel (timeout : ℚ) (maxWait : Option ℚ) (fuel : Nat)
    (st : LifecycleState) : StopOutcome :=
  let st1 : LifecycleState := { st with stopEventSet := true }
  match st1.thread with
  | some alive =>
    if alive 0 then
      let interval := max timeout (1 / 10 : ℚ)
      let deadline := maxWait.map (fun mw => max mw 0)
      match stopJoinLoop fuel alive interval deadline 0 0 with
      | .exited joins => .returned (cleanupCompletedPollingThread st1 joins)
      | .broke _ => .raised st1
      | .running _ => .stillJoining
    else .returned (cleanupCompletedPollingThread st1 0)
  | none => .returned (cleanupCompletedPollingThread st1 0)

/-! ## Pause state (src/app/bot/message_handlers/state.py) -/

/-- ASCII plus Russian-capital lower-casing, the fragment of Python's
`str.lower()` exercised by the pause values and title placeholders. -/
def pyLower (c : Char) : Char :=
  if 65 ≤ c.toNat ∧ c.toNat ≤ 90 then Char.ofNat (c.toNat + 32)
  else if 0x410 ≤ c.toNat ∧ c.toNat ≤ 0x42F then Char.ofNat (c.toNat + 0x20)
  else if c.toNat = 0x401 then Char.ofNat 0x451
  else c

/-- The built-in pause reply (src/app/bot/message_handlers/state.py,
line 7). -/
def defaultPauseMessage : List Char :=
  "Бот временно недоступен. Пожалуйста, попробуйте позже.".toList

/-- The pause-enabling values recognised by `_is_bot_paused`. -/
def pauseTruthyValues : List (List Char) :=
  ["1".toList, "true".toList, "yes".toList, "on".toList]

/-- `BotPauseStateMixin._is_bot_paused`
(src/app/bot/message_handlers/state.py, lines 14-18):
`(settings.get("bot_paused", "0") or "").strip().lower()` tested for
membership in `{"1", "true", "yes", "on"}`. -/
def isBotPaused (botPausedSetting : Option (List Char)) : Bool :=
  let raw := (stripL (botPausedSetting.getD "0".toList)).map pyLower
  pauseTruthyValues.contains raw

/-- `BotPauseStateMixin._get_pause_message`
(src/app/bot/message_handlers/state.py, lines 21-25): the stripped
configured message, or the built-in default when it is empty. -/
def getPauseMessage (pauseMessageSetting : Option (List Char)) : List Char :=
  let message := stripL (pauseMessageSetting.getD [])
  if message = [] then defaultPauseMessage else message

/-! ## Dialog budgeting (src/app/bot/dialog_management.py) -/

/-- `DialogManagementMixin._calculate_dialog_usage`
(src/app/bot/dialog_management.py, lines 177-200): the summed
prompt/completion/total token columns of the dialog's rows, optionally
filtered by model id. -/
def calculateDialogUsage (logs : List MsgLog) (modelId : Option Nat) :
    Int × Int × Int :=
  let rows := match modelId with
    | none => logs
    | some mid => logs.filter (fun l => l.modelId = some mid)
  (rows.foldl (fun a l => a + l.promptTokens) 0,
   rows.foldl (fun a l => a + l.completionTokens) 0,
   rows.foldl (fun a l => a + l.tokensUsed) 0)

/-- The most recent dialog row carrying a model id:
`MessageLog.query.filter(model_id.isnot(None)).order_by(message_index
desc).first()`. -/
def lastModelEntry (logs : List MsgLog) : Option MsgLog :=
  (logs.filter (fun l => l.modelId ≠ none)).foldl
    (fun acc l =>
      match acc with
      | none => some l
      | some a => if a.messageIndex < l.messageIndex then some l else acc)
    none

/-- `DialogManagementMixin._determine_effective_dialog_limit`
(src/app/bot/dialog_management.py, lines 203-243).  `configured` is the
value of `SettingsService.get_int("dialog_token_limit")`; that service
class is absent from the checkout, so the setting value is passed in as
the external config-store read the spec describes.  A non-positive
configured value is dropped; the per-model ceiling comes from the model
of `log_entry` (or of the most recent model-tagged row) through
`int(model.dialog_token_limit or 0)`, kept only when positive; the
result is the minimum of whatever survives, or `none`. -/
def determineEffectiveDialogLimit (configured : Option Int)
    (logs : List MsgLog) (models : List ModelCfg)
    (logEntry : Option MsgLog) : Option Int :=
  let configuredLimit : Option Int :=
    match configured with
    | some v => if v ≤ 0 then none else some v
    | none => none
  let sourceEntry : Option MsgLog :=
    match logEntry with
    | some e => some e
    | none => lastModelEntry logs
  let modelLimit : Option Int :=
    match sourceEntry with
    | some e =>
      match e.modelId with
      | some mid =>
        match models.find? (fun m => m.id = mid) with
        | some m =>
          let raw := intOrZero (some m.dialogTokenLimit)
          if 0 < raw then some raw else none
        | none => none
      | none => none
    | none => none
  match configuredLimit, modelLimit with
  | some a, some b => some (min a b)
  | some a, none => some a
  | none, some b => some b
  | none, none => none

/-- The raw per-model ceiling the dialog is subject to: the
`dialog_token_limit` column of the model of the most recent
model-tagged row. -/
def modelCeilingOf (logs : List MsgLog) (models : List ModelCfg) :
    Option Int :=
  match lastModelEntry logs with
  | some e =>
    match e.modelId with
    | some mid => (models.find? (fun m => m.id = mid)).map (·.dialogTokenLimit)
    | none => none
  | none => none

/-- The effective limit exactly as the claim words it: the minimum of
the positive configured global limit and the positive per-model
ceiling, non-positive values ignored.  (Spec-side definition for the
refinement comparison; not translated from the code.) -/
def specEffectiveLimit (configured ceiling : Option Int) : Option Int :=
  let pos : Option Int → Option Int :=
    fun x => x.bind (fun v => if 0 < v then some v else none)
  match pos configured, pos ceiling with
  | some a, some b => some (min a b)
  | some a, none => some a
  | none, some b => some b
  | none, none => none

/-! ## The free-text message handler
(src/app/bot/message_handlers/messaging.py, `_handle_message`) -/

/-- The state read by one `_handle_message` call: the pause and limit
settings, the sender's `is_active` flag, whether the sender has an
active dialog, that dialog's log rows, and the model table. -/
structure HandlerEnv where
  botPausedSetting : Option (List Char) := none
  pauseMessageSetting : Option (List Char) := none
  dialogTokenLimitSetting : Option Int := none
  userActive : Bool := true
  hasActiveDialog : Bool := false
  logs : List MsgLog := []
  models : List ModelCfg := []

/-- The observable effects of one `_handle_message` call up to the
decision whether to contact the LLM backend. -/
structure HandlerResult where
  pausedReply : Option (List Char) := none
  deniedReply : Bool := false
  dialogLookedUp : Bool := false
  dialogCreated : Bool := false
  logCreated : Bool := false
  titleSet : Option (List Char) := none
  limitNotice : Option (Int × Int) := none
  backendCalled : Bool := false
  deriving Repr, DecidableEq

/-- The log rows of the dialog the turn runs on: the active dialog's
rows, or none for a freshly created dialog. -/
def logsUsed (env : HandlerEnv) : List MsgLog :=
  if env.hasActiveDialog then env.logs else []

/-- `MessagingMixin._handle_message`
(src/app/bot/message_handlers/messaging.py, lines 20-111) up to the
backend call: resolve the user (no modelled effect), answer and stop if
paused, refuse an inactive user, fetch or create the active dialog,
append the turn's log row, set the dialog title on the first turn
(`" ".join(text.split())[:255]`), and short-circuit with a
limit-exceeded notice when the pre-turn total already meets the
effective limit; otherwise proceed to `_query_llm`. -/
def handleMessage (env : HandlerEnv) (text : List Char) : HandlerResult :=
  if isBotPaused env.botPausedSetting then
    { pausedReply := some (getPauseMessage env.pauseMessageSetting) }
  else if !env.userActive then
    { deniedReply := true }
  else
    let dialogCreated := !env.hasActiveDialog
    let logs := logsUsed env
    let messageIndex := logs.length + 1
    let newLog : MsgLog := { messageIndex := messageIndex, userMessage := text }
    let logsAfter := logs ++ [newLog]
    let titleSet : Option (List Char) :=
      if messageIndex = 1 ∧ text ≠ [] then some ((normalizeWs text).take 255)
      else none
    let limitBefore :=
      determineEffectiveDialogLimit env.dialogTokenLimitSetting logsAfter
        env.models none
    let totalBefore := (calculateDialogUsage logsAfter none).2.2
    match limitBefore with
    | some l =>
      if l ≤ totalBefore then
        { dialogLookedUp := true, dialogCreated, logCreated := true, titleSet,
          limitNotice := some (l, totalBefore), backendCalled := false }
      else
        { dialogLookedUp := true, dialogCreated, logCreated := true, titleSet,
          backendCalled := true }
    | none =>
      { dialogLookedUp := true, dialogCreated, logCreated := true, titleSet,
        backendCalled := true }

/-! ## Dialog title display
(src/app/bot/dialog_management.py, `_format_dialog_title`) -/

/-- The placeholder titles ignored by the history display
(src/app/bot/dialog_management.py, line 161). -/
def placeholderTitles : List (List Char) :=
  ["диалог".toList, "новый диалог".toList, "dialog".toList,
   "new dialog".toList]

/-- Decimal digits of a `Nat`, as `str(n)` renders them. -/
def natToChars (n : Nat) : List Char := Nat.toDigits 10 n

/-- The `f"Диалог #{dialog.id}"` fallback title. -/
def dialogFallbackTitle (dialogId : Nat) : List Char :=
  "Диалог #".toList ++ natToChars dialogId

/-- The dialog's first log row:
`MessageLog.query...order_by(message_index.asc()).first()`. -/
def firstLogEntry (logs : List MsgLog) : Option MsgLog :=
  logs.foldl
    (fun acc l =>
      match acc with
      | none => some l
      | some a => if l.messageIndex < a.messageIndex then some l else acc)
    none

/-- `DialogManagementMixin._format_dialog_title`
(src/app/bot/dialog_management.py, lines 157-174): strip the stored
title, blank it when it is a known placeholder, fall back to the first
message (or `Диалог #id`), normalize whitespace, cap the display at 40
characters appending `…`, and fall back again when everything is
empty. -/
def formatDialogTitle (title : List Char) (dialogId : Nat)
    (logs : List MsgLog) : List Char :=
  let base0 := stripL title
  let base1 :=
    if base0 ≠ [] ∧ base0.map pyLower ∈ placeholderTitles then []
    else base0
  let base2 :=
    if base1 = [] then
      match firstLogEntry logs with
      | some l => l.userMessage
      | none => dialogFallbackTitle dialogId
    else base1
  let prepared0 := normalizeWs base2
  let prepared1 :=
    if 40 < prepared0.length then prepared0.take 40 ++ ['…'] else prepared0
  if prepared1 = [] then dialogFallbackTitle dialogId else prepared1

/-- The stored dialog title written on the first turn, shared by the C7
theorems: `" ".join(text.split())[:255]`
(src/app/bot/message_handlers/messaging.py, lines 58-59). -/
theorem handleMessage_titleSet_first (env : HandlerEnv) (text : List Char)
    (hp : isBotPaused env.botPausedSetting = false)
    (ha : env.userActive = true)
    (hfirst : logsUsed env = [])
    (htext : text ≠ []) :
    (handleMessage env text).titleSet = some ((normalizeWs text).take 255) := by
  simp only [handleMessage, hp, Bool.false_eq_true, if_false, ha,
    Bool.not_true, if_false]
  rw [hfirst]
  split
  · rename_i l heq
    split
    · simp [htext]
    · simp [htext]
  · simp [htext]

/-- Whitespace normalization is the identity on whitespace-free
text. -/
theorem normalizeWs_no_space (l : List Char) (hl : l ≠ [])
    (hns : ∀ c ∈ l, pySpace c = false) : normalizeWs l = l := by
  have hsplit : pySplit l = [l] := by
    cases l with
    | nil => cases hl rfl
    | cons c rest =>
      have hc : pySpace c = false := hns c (by simp)
      have htake : (c :: rest).takeWhile (fun d => !pySpace d) = c :: rest :=
        List.takeWhile_eq_self_iff.mpr (by intro x hx; simp [hns x hx])
      have hdrop : (c :: rest).dropWhile (fun d => !pySpace d) = [] :=
        List.dropWhile_eq_nil_iff.mpr (by intro x hx; simp [hns x hx])
      simp [pySplit, hc, htake, hdrop]
  rw [normalizeWs, hsplit]
  simp [List.intercalate]

/-! ## Dialog activation and the single-active-dialog invariant
(src/app/bot/dialog_management.py and
src/app/bot/message_handlers/dialog_management.py)

The `Dialog` model class itself is absent from the checkout (the
mixins import it from `app.models`, which no longer defines it), so
its two relevant behaviours are modelled from the spec and noted
below; all the mutating logic is embedded from the mixin sources. -/

/-- The columns of a `dialogs` row used by activation. -/
structure DialogRow where
  id : Nat
  userId : Nat
  isActive : Bool
  startedAt : Nat
  endedAt : Option Nat := none
  deriving Repr, DecidableEq

/-- Modelled from the spec: `Dialog.close()` — the `Dialog` model class
is missing from src (only its callers remain) and the spec says a
dialog is "closed (deactivated, `endedAt` set)". -/
def closeDialog (now : Nat) (d : DialogRow) : DialogRow :=
  { d with isActive := false, endedAt := some now }

/-- Modelled from the spec: a freshly created `Dialog` row is the
user's active conversation ("Created on first message or explicit
'new dialog' action"). -/
def newDialogRow (userId dialogId now : Nat) : DialogRow :=
  { id := dialogId, userId := userId, isActive := true, startedAt := now }

/-- Is this row an active dialog of user `u`? -/
def activeFor (u : Nat) (d : DialogRow) : Bool :=
  d.userId == u && d.isActive

/-- How many active dialogs user `u` has. -/
def activeCount (db : List DialogRow) (u : Nat) : Nat :=
  db.countP (activeFor u)

/-- `DialogManagementMixin._get_active_dialog`
(src/app/bot/dialog_management.py, lines 126-129): the user's active
dialog with the latest `started_at`. -/
def getActiveDialog (u : Nat) (db : List DialogRow) : Option DialogRow :=
  (db.filter (activeFor u)).foldl
    (fun acc d =>
      match acc with
      | none => some d
      | some a => if a.startedAt < d.startedAt then some d else acc)
    none

/-- `DialogManagementMixin._activate_dialog`
(src/app/bot/dialog_management.py, lines 143-154): every other active
dialog of the user is deactivated with `ended_at` set, then the chosen
dialog is made active with `ended_at` cleared. -/
def activateDialog (now u targetId : Nat) (db : List DialogRow) :
    List DialogRow :=
  db.map fun d =>
    if d.id = targetId then { d with isActive := true, endedAt := none }
    else if activeFor u d then closeDialog now d
    else d

/-- `DialogHistoryHandlersMixin._handle_new_dialog`
(src/app/bot/message_handlers/dialog_management.py, lines 81-105):
close the current active dialog, if any, then create the fresh
active one. -/
def handleNewDialog (now u newId : Nat) (db : List DialogRow) :
    List DialogRow :=
  let db1 :=
    match getActiveDialog u db with
    | some cur => db.map fun d => if d.id = cur.id then closeDialog now d else d
    | none => db
  db1 ++ [newDialogRow u newId now]

/-- The dialog-resolution step of `_handle_message`
(src/app/bot/message_handlers/messaging.py, lines 35-43): create a new
dialog only when the user has no active one. -/
def ensureDialogOnMessage (now u newId : Nat) (db : List DialogRow) :
    List DialogRow :=
  match getActiveDialog u db with
  | some _ => db
  | none => db ++ [newDialogRow u newId now]

/-- The foldl that picks the latest-started dialog yields `none` only
from an empty candidate list, and always yields a member. -/
theorem pickLatest_mem (l : List DialogRow) :
    ((l.foldl
      (fun acc d =>
        match acc with
        | none => some d
        | some a => if a.startedAt < d.startedAt then some d else acc)
      none = none) → l = []) ∧
    (∀ r, l.foldl
      (fun acc d =>
        match acc with
        | none => some d
        | some a => if a.startedAt < d.startedAt then some d else acc)
      none = some r → r ∈ l) := by
  have hgen : ∀ (l : List DialogRow) (a : DialogRow),
      ∀ r, l.foldl
        (fun acc d =>
          match acc with
          | none => some d
          | some a => if a.startedAt < d.startedAt then some d else acc)
        (some a) = some r → r = a ∨ r ∈ l := by
    intro l
    induction l with
    | nil =>
      intro a r h
      simp at h
      simp [h]
    | cons d rest ih =>
      intro a r h
      simp only [List.foldl_cons] at h
      by_cases hlt : a.startedAt < d.startedAt
      · rw [if_pos hlt] at h
        rcases ih d r h with h1 | h1
        · right; simp [h1]
        · right; simp [h1]
      · rw [if_neg hlt] at h
        rcases ih a r h with h1 | h1
        · left; exact h1
        · right; simp [h1]
  constructor
  · intro hnone
    cases l with
    | nil => rfl
    | cons d rest =>
      exfalso
      simp only [List.foldl_cons] at hnone
      rcases hfold : rest.foldl
          (fun acc d =>
            match acc with
            | none => some d
            | some a => if a.startedAt < d.startedAt then some d else acc)
          (some d) with _ | r
      · -- a some accumulator never becomes none
        exfalso
        clear hnone
        induction rest generalizing d with
        | nil => simp at hfold
        | cons e rest' ih =>
          simp only [List.foldl_cons] at hfold
          by_cases hlt : d.startedAt < e.startedAt
          · rw [if_pos hlt] at hfold
            exact ih e hfold
          · rw [if_neg hlt] at hfold
            exact ih d hfold
      · rw [hfold] at hnone
        cases hnone
  · intro r h
    cases l with
    | nil => simp [List.foldl_nil] at h
    | cons d rest =>
      simp only [List.foldl_cons] at h
      rcases hgen rest d r h with h1 | h1
      · simp [h1]
      · simp [h1]

/-- A user with no active dialog has an active count of zero. -/
theorem getActiveDialog_none {u : Nat} {db : List DialogRow}
    (h : getActiveDialog u db = none) : activeCount db u = 0 := by
  have hempty := (pickLatest_mem (db.filter (activeFor u))).1 h
  rw [activeCount, List.countP_eq_length_filter, hempty]
  rfl

/-- A returned active dialog is an active member row of the user. -/
theorem getActiveDialog_mem {u : Nat} {db : List DialogRow}
    {cur : DialogRow} (h : getActiveDialog u db = some cur) :
    cur ∈ db ∧ activeFor u cur = true := by
  have hmem := (pickLatest_mem (db.filter (activeFor u))).2 cur h
  exact ⟨(List.mem_filter.mp hmem).1, (List.mem_filter.mp hmem).2⟩

/-- A list of length at most one has only equal members. -/
theorem mem_of_length_le_one {α : Type} {l : List α} (hl : l.length ≤ 1)
    {a b : α} (ha : a ∈ l) (hb : b ∈ l) : a = b := by
  cases l with
  | nil => cases ha
  | cons x rest =>
    cases rest with
    | nil =>
      simp at ha hb
      rw [ha, hb]
    | cons y rest' => simp at hl

/-! ## Output segmentation
(src/app/bot/message_handlers/messaging.py, `_prepare_response_chunks`)

The Python loop packs at most 4096 characters per outbound message,
reserving a three-dot continuation marker as the suffix of every
segment that will be continued and as the prefix of every non-first
segment, preferring to break at the last space of the packed window and
trimming whitespace around the break (`core[:split_pos].rstrip()`,
`remaining[split_pos:].lstrip()`). -/

/-- The `"..."` continuation marker. -/
def continuationMark : List Char := ['.', '.', '.']

/-- Python `core.rfind(" ")`: the index of the last space, if any. -/
def rfindSpace : List Char → Option Nat
  | [] => none
  | c :: rest =>
    match rfindSpace rest with
    | some i => some (i + 1)
    | none => if c = ' ' then some 0 else none

/-- `split_pos = core.rfind(" "); if split_pos <= 0: split_pos =
available` (a missing space is `rfind = -1`). -/
def splitPosOf (core : List Char) (available : Nat) : Nat :=
  match rfindSpace core with
  | some i => if i = 0 then available else i
  | none => available

/-- A found space lies inside the text. -/
theorem rfindSpace_lt_length {l : List Char} {i : Nat}
    (h : rfindSpace l = some i) : i < l.length := by
  induction l generalizing i with
  | nil => cases h
  | cons c rest ih =>
    simp only [rfindSpace] at h
    cases hr : rfindSpace rest with
    | some j =>
      rw [hr] at h
      cases h
      have := ih hr
      simp
      omega
    | none =>
      rw [hr] at h
      by_cases hc : c = ' '
      · rw [if_pos hc] at h
        cases h
        simp
      · rw [if_neg hc] at h
        cases h

/-- The chosen split position is positive when `available` is. -/
theorem splitPosOf_pos (core : List Char) {available : Nat}
    (hav : 1 ≤ available) : 1 ≤ splitPosOf core available := by
  unfold splitPosOf
  cases h : rfindSpace core with
  | none => exact hav
  | some i =>
    have hred : (match some i with
        | some j => if j = 0 then available else j
        | none => available) = if i = 0 then available else i := rfl
    rw [hred]
    by_cases hi : i = 0
    · rw [if_pos hi]
      exact hav
    · rw [if_neg hi]
      omega

/-- The chosen split position never exceeds `available` when the window
`core` has at most `available` characters. -/
theorem splitPosOf_le (core : List Char) {available : Nat}
    (hlen : core.length ≤ available) :
    splitPosOf core available ≤ available := by
  unfold splitPosOf
  cases h : rfindSpace core with
  | none => exact le_refl _
  | some i =>
    have hi_lt := rfindSpace_lt_length h
    have hred : (match some i with
        | some j => if j = 0 then available else j
        | none => available) = if i = 0 then available else i := rfl
    rw [hred]
    by_cases hi : i = 0
    · rw [if_pos hi]
    · rw [if_neg hi]
      omega

/-- The per-iteration marker/window computation of the
`_prepare_response_chunks` loop (src/app/bot/message_handlers/
messaging.py, lines 186-200): the prefix marker goes on every non-first
segment, the suffix marker whenever more text follows the window
(`needs_split`, which compares against `4096` for the first segment and
`4096 - 3` afterwards), and the `available <= 0` rescue branch of the
source is kept although these constants never trigger it.  Returns
`(prefix, suffix, available)`. -/
def chunkParams (firstChunk : Bool) (len : Nat) :
    List Char × List Char × Nat :=
  let pfx0 : List Char := if firstChunk then [] else continuationMark
  let needsSplit : Bool := decide (4096 - pfx0.length < len)
  let sfx0 : List Char := if needsSplit then continuationMark else []
  let available0 := 4096 - pfx0.length - sfx0.length
  if available0 = 0 then ([], [], 4096) else (pfx0, sfx0, available0)

/-- The window is always at least one character. -/
theorem chunkParams_available_pos (f : Bool) (len : Nat) :
    1 ≤ (chunkParams f len).2.2 := by
  unfold chunkParams
  cases f <;> simp [continuationMark] <;> split <;> simp_all <;> omega

/-- Both markers are empty or the three-dot continuation marker. -/
theorem chunkParams_marks (f : Bool) (len : Nat) :
    ((chunkParams f len).1 = [] ∨ (chunkParams f len).1 = continuationMark) ∧
    ((chunkParams f len).2.1 = [] ∨
      (chunkParams f len).2.1 = continuationMark) := by
  unfold chunkParams
  cases f <;> simp [continuationMark] <;> split <;> simp_all

/-- Markers plus window never exceed the 4096-character transport
limit. -/
theorem chunkParams_sum (f : Bool) (len : Nat) :
    (chunkParams f len).1.length + (chunkParams f len).2.2 +
      (chunkParams f len).2.1.length ≤ 4096 := by
  unfold chunkParams
  cases f <;> simp [continuationMark] <;> split <;> simp_all <;> omega

/-- The `while remaining:` loop of `_prepare_response_chunks`
(src/app/bot/message_handlers/messaging.py, lines 181-218), returning
each iteration's `(core, chunk)` pair, where `chunk = prefix + core +
suffix`: a window-sized tail is emitted whole; a longer tail is cut at
the window, preferring the last space (`splitPosOf`), trimming
whitespace around the cut (`core[:split_pos].rstrip()`,
`remaining[split_pos:].lstrip()`), and looping on the rest. -/
def chunksLoopAux : List Char → Bool → List (List Char × List Char)
  | [], _ => []
  | c :: rest, firstChunk =>
    let ps := chunkParams firstChunk (c :: rest).length
    if (c :: rest).length ≤ ps.2.2 then
      [((c :: rest), ps.1 ++ (c :: rest) ++ ps.2.1)]
    else
      let core := (c :: rest).take ps.2.2
      let splitPos := splitPosOf core ps.2.2
      let core2 := rstripL (core.take splitPos)
      let remaining2 := lstripL ((c :: rest).drop splitPos)
      (core2, ps.1 ++ core2 ++ ps.2.1) :: chunksLoopAux remaining2 false
  termination_by remaining _ => remaining.length
  decreasing_by
    have hav : 1 ≤ ps.2.2 := chunkParams_available_pos _ _
    have key : (lstripL ((c :: rest).drop splitPos)).length <
        (c :: rest).length := by
      have hdrop : ((c :: rest).drop splitPos).length =
          (c :: rest).length - splitPos := List.length_drop _ _
      have hstrip := dropWhile_length_le pySpace ((c :: rest).drop splitPos)
      have hlen1 : 1 ≤ (c :: rest).length := by
        simp
      have hpos : 1 ≤ splitPos := splitPosOf_pos core hav
      unfold lstripL
      omega
    exact key

/-- `MessagingMixin._prepare_response_chunks`
(src/app/bot/message_handlers/messaging.py, lines 171-220) on the
default `escape=False` path, instrumented with each segment's core:
empty text gives no segments, a fitting text is emitted unchanged, and
longer texts run the packing loop. -/
def prepareResponseChunksAux (text : List Char) :
    List (List Char × List Char) :=
  if text = [] then []
  else if text.length ≤ 4096 then [(text, text)]
  else chunksLoopAux text true

/-- The segments `_prepare_response_chunks` returns. -/
def prepareResponseChunks (text : List Char) : List (List Char) :=
  (prepareResponseChunksAux text).map Prod.snd

/-- The cores of those segments: the text carried between markers. -/
def prepareResponseCores (text : List Char) : List (List Char) :=
  (prepareResponseChunksAux text).map Prod.fst

/-- The reply-markup decision of the send loop in `_handle_message`
(src/app/bot/message_handlers/messaging.py, lines 127-141): the
keyboard goes on a segment exactly when it is the last one and the
token limit was not exceeded by this turn. -/
def segmentMarkupFlags (chunks : List (List Char)) (limitExceeded : Bool) :
    List Bool :=
  (List.range chunks.length).map
    (fun i => i = chunks.length - 1 && !limitExceeded)

/-- `WsSub s t`: `s` is obtained from `t` by deleting only whitespace
characters (in place).  This captures "round trip up to the whitespace
trimmed at split boundaries". -/
inductive WsSub : List Char → List Char → Prop where
  | nil : WsSub [] []
  | keep (c : Char) {s t : List Char} : WsSub s t → WsSub (c :: s) (c :: t)
  | dropW {c : Char} {s t : List Char} :
      pySpace c = true → WsSub s t → WsSub s (c :: t)

/-- Keeping everything is a whitespace deletion. -/
theorem wsSub_refl (l : List Char) : WsSub l l := by
  induction l with
  | nil => exact .nil
  | cons c rest ih => exact .keep c ih

/-- Deleting an all-whitespace text entirely. -/
theorem wsSub_nil_of_ws (w : List Char) (h : ∀ c ∈ w, pySpace c = true) :
    WsSub [] w := by
  induction w with
  | nil => exact .nil
  | cons c rest ih =>
    exact .dropW (h c (by simp)) (ih (fun x hx => h x (by simp [hx])))

/-- Whitespace deletion is compatible with concatenation. -/
theorem wsSub_append {s₁ t₁ s₂ t₂ : List Char} (h₁ : WsSub s₁ t₁)
    (h₂ : WsSub s₂ t₂) : WsSub (s₁ ++ s₂) (t₁ ++ t₂) := by
  induction h₁ with
  | nil => exact h₂
  | keep c h ih => exact .keep c ih
  | dropW hc h ih => exact .dropW hc ih

/-- Whitespace deletions compose. -/
theorem wsSub_trans {s t u : List Char} (h₁ : WsSub s t) (h₂ : WsSub t u) :
    WsSub s u := by
  induction h₂ generalizing s with
  | nil => exact h₁
  | keep c h ih =>
    cases h₁ with
    | keep _ h' => exact .keep c (ih h')
    | dropW hc h' => exact .dropW hc (ih h')
  | dropW hc h ih => exact .dropW hc (ih h₁)

/-- Left stripping is a whitespace deletion. -/
theorem wsSub_lstrip (t : List Char) : WsSub (lstripL t) t := by
  have h : WsSub ([] ++ lstripL t) (t.takeWhile pySpace ++ t.dropWhile pySpace) :=
    wsSub_append
      (wsSub_nil_of_ws _ (fun c hc => List.mem_takeWhile_imp hc))
      (wsSub_refl _)
  simpa [lstripL, List.takeWhile_append_dropWhile] using h

/-- Right stripping is a whitespace deletion. -/
theorem wsSub_rstrip (t : List Char) : WsSub (rstripL t) t := by
  have h2 : t = (t.reverse.dropWhile pySpace).reverse ++
      (t.reverse.takeWhile pySpace).reverse := by
    calc t = t.reverse.reverse := (List.reverse_reverse t).symm
      _ = (t.reverse.takeWhile pySpace ++ t.reverse.dropWhile pySpace).reverse := by
          rw [List.takeWhile_append_dropWhile]
      _ = (t.reverse.dropWhile pySpace).reverse ++
          (t.reverse.takeWhile pySpace).reverse := List.reverse_append ..
  have h : WsSub ((t.reverse.dropWhile pySpace).reverse ++ [])
      ((t.reverse.dropWhile pySpace).reverse ++
        (t.reverse.takeWhile pySpace).reverse) :=
    wsSub_append (wsSub_refl _)
      (wsSub_nil_of_ws _ (fun c hc =>
        List.mem_takeWhile_imp (List.mem_reverse.mp hc)))
  rw [List.append_nil] at h
  nth_rewrite 2 [h2]
  exact h

/-- A whitespace deletion never lengthens the text. -/
theorem wsSub_length_le {s t : List Char} (h : WsSub s t) :
    s.length ≤ t.length := by
  induction h with
  | nil => exact le_refl _
  | keep c h ih => simpa using ih
  | dropW hc h ih =>
    simp
    omega

/-- On whitespace-free text a whitespace deletion deletes nothing. -/
theorem wsSub_eq_of_no_ws {s t : List Char} (h : WsSub s t)
    (hns : ∀ c ∈ t, pySpace c = false) : s = t := by
  induction h with
  | nil => rfl
  | keep c h ih =>
    rw [ih (fun x hx => hns x (by simp [hx]))]
  | dropW hc h ih =>
    exfalso
    have hcf := hns _ (List.mem_cons_self _ _)
    rw [hcf] at hc
    cases hc

/-- Right stripping never lengthens a list. -/
theorem rstripL_length_le (l : List Char) : (rstripL l).length ≤ l.length := by
  unfold rstripL
  have h := dropWhile_length_le pySpace l.reverse
  simpa using h

/-- The combined invariant of the packing loop: concatenating the cores
is a whitespace deletion of the input, and every produced chunk is its
core wrapped in optional markers with total length at most 4096. -/
theorem chunksLoopAux_spec (n : Nat) :
    ∀ (remaining : List Char) (first : Bool), remaining.length ≤ n →
    WsSub ((chunksLoopAux remaining first).map Prod.fst).flatten remaining ∧
    ∀ p ∈ chunksLoopAux remaining first,
      p.2.length ≤ 4096 ∧
      ∃ pf sf, p.2 = pf ++ p.1 ++ sf ∧
        (pf = [] ∨ pf = continuationMark) ∧
        (sf = [] ∨ sf = continuationMark) := by
  induction n with
  | zero =>
    intro remaining first h
    have hnil : remaining = [] := by
      cases remaining with
      | nil => rfl
      | cons c rest => simp at h
    subst hnil
    exact ⟨by simpa [chunksLoopAux] using WsSub.nil, by simp [chunksLoopAux]⟩
  | succ n ih =>
    intro remaining first hlen
    cases remaining with
    | nil => exact ⟨by simpa [chunksLoopAux] using WsSub.nil, by simp [chunksLoopAux]⟩
    | cons c rest =>
      have hav : 1 ≤ (chunkParams first (c :: rest).length).2.2 :=
        chunkParams_available_pos _ _
      have hsum := chunkParams_sum first (c :: rest).length
      have hmarks := chunkParams_marks first (c :: rest).length
      by_cases hfit :
          (c :: rest).length ≤ (chunkParams first (c :: rest).length).2.2
      · have hunfold : chunksLoopAux (c :: rest) first =
            [((c :: rest),
              (chunkParams first (c :: rest).length).1 ++ (c :: rest) ++
                (chunkParams first (c :: rest).length).2.1)] := by
          simp only [chunksLoopAux]
          rw [if_pos hfit]
        rw [hunfold]
        refine ⟨by simpa using wsSub_refl (c :: rest), ?_⟩
        intro p hp
        simp only [List.mem_singleton] at hp
        subst hp
        refine ⟨?_, (chunkParams first (c :: rest).length).1,
          (chunkParams first (c :: rest).length).2.1, rfl, hmarks.1, hmarks.2⟩
        simp only [List.length_append]
        omega
      · have hsple : splitPosOf ((c :: rest).take
            (chunkParams first (c :: rest).length).2.2)
            (chunkParams first (c :: rest).length).2.2 ≤
            (chunkParams first (c :: rest).length).2.2 := by
          apply splitPosOf_le
          simp [List.length_take]
        have hsp1 : 1 ≤ splitPosOf ((c :: rest).take
            (chunkParams first (c :: rest).length).2.2)
            (chunkParams first (c :: rest).length).2.2 :=
          splitPosOf_pos _ hav
        have hunfold : chunksLoopAux (c :: rest) first =
            (rstripL (((c :: rest).take
                (chunkParams first (c :: rest).length).2.2).take
                (splitPosOf ((c :: rest).take
                  (chunkParams first (c :: rest).length).2.2)
                  (chunkParams first (c :: rest).length).2.2)),
              (chunkParams first (c :: rest).length).1 ++
                rstripL (((c :: rest).take
                  (chunkParams first (c :: rest).length).2.2).take
                  (splitPosOf ((c :: rest).take
                    (chunkParams first (c :: rest).length).2.2)
                    (chunkParams first (c :: rest).length).2.2)) ++
                (chunkParams first (c :: rest).length).2.1) ::
              chunksLoopAux (lstripL ((c :: rest).drop
                (splitPosOf ((c :: rest).take
                  (chunkParams first (c :: rest).length).2.2)
                  (chunkParams first (c :: rest).length).2.2))) false := by
          simp only [chunksLoopAux]
          rw [if_neg hfit]
        set A := (chunkParams first (c :: rest).length).2.2 with hA
        set sp := splitPosOf ((c :: rest).take A) A with hsp
        set core2 := rstripL (((c :: rest).take A).take sp) with hcore2
        set rem2 := lstripL ((c :: rest).drop sp) with hrem2
        have hlt : rem2.length < (c :: rest).length := by
          have hdrop : ((c :: rest).drop sp).length =
              (c :: rest).length - sp := List.length_drop _ _
          have hstrip := dropWhile_length_le pySpace ((c :: rest).drop sp)
          have hlen1 : 1 ≤ (c :: rest).length := by
            simp
          rw [hrem2]
          unfold lstripL
          omega
        obtain ⟨ihws, ihlen⟩ := ih rem2 false (by
          have hlt' := hlt
          simp only [List.length_cons] at hlt' hlen
          omega)
        rw [hunfold]
        constructor
        · simp only [List.map_cons, List.flatten_cons]
          have htk : ((c :: rest).take A).take sp = (c :: rest).take sp := by
            rw [List.take_take]
            rw [min_eq_left hsple]
          have h1 : WsSub core2 ((c :: rest).take sp) := by
            rw [hcore2, htk]
            exact wsSub_rstrip _
          have h4 : WsSub ((chunksLoopAux rem2 false).map Prod.fst).flatten
              ((c :: rest).drop sp) :=
            wsSub_trans ihws (wsSub_lstrip _)
          have h5 := wsSub_append h1 h4
          rw [List.take_append_drop] at h5
          exact h5
        · intro p hp
          rcases List.mem_cons.mp hp with hp1 | hp1
          · subst hp1
            refine ⟨?_, (chunkParams first (c :: rest).length).1,
              (chunkParams first (c :: rest).length).2.1, rfl,
              hmarks.1, hmarks.2⟩
            have hc2 : core2.length ≤ sp := by
              rw [hcore2]
              calc (rstripL (((c :: rest).take A).take sp)).length ≤
                  (((c :: rest).take A).take sp).length :=
                    rstripL_length_le _
                _ ≤ sp := by
                    simp [List.length_take]
            simp only [List.length_append]
            omega
          · exact ihlen p hp1

/-- With the limit not exceeded, the markup flags are `false`
everywhere except on the last segment. -/
theorem segmentMarkupFlags_last (chunks : List (List Char))
    (h : chunks ≠ []) :
    segmentMarkupFlags chunks false =
      List.replicate (chunks.length - 1) false ++ [true] := by
  obtain ⟨m, hm⟩ : ∃ m, chunks.length = m + 1 := by
    cases hlen : chunks.length with
    | zero =>
      exact absurd (List.eq_nil_of_length_eq_zero hlen) h
    | succ m => exact ⟨m, rfl⟩
  unfold segmentMarkupFlags
  rw [hm]
  rw [List.range_succ, List.map_append]
  congr 1
  · have : ∀ b ∈ (List.range m).map
        (fun i => decide (i = m + 1 - 1) && !false), b = false := by
      intro b hb
      obtain ⟨i, hi, hib⟩ := List.mem_map.mp hb
      have him : i < m := List.mem_range.mp hi
      rw [← hib]
      simp
      omega
    apply List.eq_replicate_iff.mpr
    constructor
    · simp
    · intro b hb
      exact this b hb
  · simp

/-- `rfind(" ")` misses space-free text. -/
theorem rfindSpace_no_space (l : List Char) (h : ∀ c ∈ l, c ≠ ' ') :
    rfindSpace l = none := by
  induction l with
  | nil => rfl
  | cons c rest ih =>
    simp only [rfindSpace]
    rw [ih (fun x hx => h x (by simp [hx]))]
    rw [if_neg (h c (by simp))]

/-- `rfind(" ")` on text with a single space after a space-free tail
finds exactly that space. -/
theorem rfindSpace_concat (l₁ l₂ : List Char)
    (h₂ : ∀ c ∈ l₂, c ≠ ' ') :
    rfindSpace (l₁ ++ ' ' :: l₂) = some l₁.length := by
  induction l₁ with
  | nil =>
    simp only [List.nil_append, rfindSpace]
    rw [rfindSpace_no_space l₂ h₂]
    simp
  | cons c rest ih =>
    simp only [List.cons_append, rfindSpace, List.append_eq]
    rw [ih]
    simp

/-- `dropWhile` is the identity when no element satisfies the
predicate. -/
theorem dropWhile_eq_self_of_neg {p : Char → Bool} {l : List Char}
    (h : ∀ c ∈ l, p c = false) : l.dropWhile p = l := by
  cases l with
  | nil => rfl
  | cons c rest =>
    rw [List.dropWhile_cons_of_neg]
    simp [h c (by simp)]

/-- Right stripping is the identity on whitespace-free text. -/
theorem rstripL_no_ws (l : List Char) (h : ∀ c ∈ l, pySpace c = false) :
    rstripL l = l := by
  unfold rstripL
  rw [dropWhile_eq_self_of_neg (fun c hc => h c (List.mem_reverse.mp hc))]
  exact List.reverse_reverse l

/-- The 5000-character reply that breaks the exact round trip: 4000
`a`s, one space, 999 `b`s. -/
def badChunkText : List Char :=
  List.replicate 4000 'a' ++ ' ' :: List.replicate 999 'b'

/-- The core text the claim ascribes to the segments: the leading
marker stripped off every non-first segment and the trailing marker off
every non-final one, then concatenated. -/
def stripClaimMarkers (chunks : List (List Char)) : List Char :=
  (chunks.enum.map (fun ic =>
    let a := if ic.1 = 0 then ic.2 else ic.2.drop continuationMark.length
    if ic.1 = chunks.length - 1 then a
    else a.take (a.length - continuationMark.length))).flatten

/-- Unfolding of the packing loop on a non-empty tail, with the
iteration's parameters written out. -/
theorem chunksLoopAux_ne_nil_eq (remaining : List Char) (first : Bool)
    (h : remaining ≠ []) :
    chunksLoopAux remaining first =
      if remaining.length ≤ (chunkParams first remaining.length).2.2 then
        [(remaining, (chunkParams first remaining.length).1 ++ remaining ++
          (chunkParams first remaining.length).2.1)]
      else
        (rstripL ((remaining.take (chunkParams first remaining.length).2.2).take
            (splitPosOf (remaining.take (chunkParams first remaining.length).2.2)
              (chunkParams first remaining.length).2.2)),
          (chunkParams first remaining.length).1 ++
            rstripL ((remaining.take (chunkParams first remaining.length).2.2).take
              (splitPosOf (remaining.take (chunkParams first remaining.length).2.2)
                (chunkParams first remaining.length).2.2)) ++
            (chunkParams first remaining.length).2.1) ::
          chunksLoopAux (lstripL (remaining.drop
            (splitPosOf (remaining.take (chunkParams first remaining.length).2.2)
              (chunkParams first remaining.length).2.2))) false := by
  cases remaining with
  | nil => exact absurd rfl h
  | cons c rest => simp only [chunksLoopAux]

/-- The packing loop on the 5000-character reply: the space at the
split boundary survives in neither core. -/
theorem chunksLoopAux_badChunkText :
    chunksLoopAux badChunkText true =
      [(List.replicate 4000 'a',
        List.replicate 4000 'a' ++ continuationMark),
       (List.replicate 999 'b',
        continuationMark ++ List.replicate 999 'b')] := by
  have hblen : badChunkText.length = 5000 := by
    rw [badChunkText, List.length_append, List.length_cons,
      List.length_replicate, List.length_replicate]
  have hbne : badChunkText ≠ [] := by
    apply List.ne_nil_of_length_pos
    rw [hblen]
    omega
  have hb92_ne : ∀ c ∈ List.replicate 92 'b', c ≠ ' ' := by
    intro c hc
    rw [List.eq_of_mem_replicate hc]
    decide
  have hano_ws : ∀ c ∈ List.replicate 4000 'a', pySpace c = false := by
    intro c hc
    rw [List.eq_of_mem_replicate hc]
    rfl
  have hbno_ws : ∀ c ∈ List.replicate 999 'b', pySpace c = false := by
    intro c hc
    rw [List.eq_of_mem_replicate hc]
    rfl
  have hparams : chunkParams true 5000 = ([], continuationMark, 4093) := by
    decide
  have hcore : badChunkText.take 4093 =
      List.replicate 4000 'a' ++ ' ' :: List.replicate 92 'b' := by
    rw [badChunkText, List.take_append_eq_append_take]
    rw [List.take_of_length_le (by rw [List.length_replicate]; omega)]
    have hx : List.take (4093 - (List.replicate 4000 'a').length)
        (' ' :: List.replicate 999 'b') = ' ' :: List.replicate 92 'b' := by
      rw [List.length_replicate]
      rw [show (4093 - 4000 : Nat) = 92 + 1 from rfl, List.take_succ_cons,
        List.take_replicate]
      rw [show min 92 999 = 92 from rfl]
    rw [hx]
  have hrfind : rfindSpace (List.replicate 4000 'a' ++
      ' ' :: List.replicate 92 'b') = some 4000 := by
    rw [rfindSpace_concat _ _ hb92_ne, List.length_replicate]
  have hsplit : splitPosOf (badChunkText.take 4093) 4093 = 4000 := by
    rw [hcore]
    unfold splitPosOf
    rw [hrfind]
    rfl
  have hcore2 : (badChunkText.take 4093).take 4000 =
      List.replicate 4000 'a' := by
    rw [hcore, List.take_append_eq_append_take]
    rw [List.take_of_length_le (by rw [List.length_replicate])]
    have hx : List.take (4000 - (List.replicate 4000 'a').length)
        (' ' :: List.replicate 92 'b') = [] := by
      rw [List.length_replicate]
      rw [show (4000 - 4000 : Nat) = 0 from rfl, List.take_zero]
    rw [hx, List.append_nil]
  have hdrop : badChunkText.drop 4000 = ' ' :: List.replicate 999 'b' := by
    rw [badChunkText, List.drop_append_eq_append_drop]
    rw [List.drop_of_length_le (by rw [List.length_replicate])]
    have hx : List.drop (4000 - (List.replicate 4000 'a').length)
        (' ' :: List.replicate 999 'b') = ' ' :: List.replicate 999 'b' := by
      rw [List.length_replicate]
      rw [show (4000 - 4000 : Nat) = 0 from rfl, List.drop_zero]
    rw [hx, List.nil_append]
  have hlstrip : lstripL (' ' :: List.replicate 999 'b') =
      List.replicate 999 'b' := by
    unfold lstripL
    rw [List.dropWhile_cons_of_pos (by rfl)]
    exact dropWhile_eq_self_of_neg hbno_ws
  have hrstrip : rstripL (List.replicate 4000 'a') =
      List.replicate 4000 'a' := rstripL_no_ws _ hano_ws
  have hstep1 : chunksLoopAux badChunkText true =
      (List.replicate 4000 'a',
        [] ++ List.replicate 4000 'a' ++ continuationMark) ::
        chunksLoopAux (List.replicate 999 'b') false := by
    rw [chunksLoopAux_ne_nil_eq badChunkText true hbne]
    rw [hblen, hparams]
    rw [show (([], continuationMark, 4093) :
      List Char × List Char × Nat).2.2 = 4093 from rfl]
    rw [show (([], continuationMark, 4093) :
      List Char × List Char × Nat).1 = [] from rfl]
    rw [show (([], continuationMark, 4093) :
      List Char × List Char × Nat).2.1 = continuationMark from rfl]
    rw [if_neg (by omega)]
    rw [hsplit, hcore2, hrstrip, hdrop, hlstrip]
  have hbne2 : List.replicate 999 'b' ≠ [] := by
    apply List.ne_nil_of_length_pos
    rw [List.length_replicate]
    omega
  have hparams2 : chunkParams false 999 = (continuationMark, [], 4093) := by
    decide
  have hstep2 : chunksLoopAux (List.replicate 999 'b') false =
      [(List.replicate 999 'b',
        continuationMark ++ List.replicate 999 'b' ++ [])] := by
    rw [chunksLoopAux_ne_nil_eq (List.replicate 999 'b') false hbne2]
    rw [List.length_replicate, hparams2]
    rw [show ((continuationMark, [], 4093) :
      List Char × List Char × Nat).2.2 = 4093 from rfl]
    rw [show ((continuationMark, [], 4093) :
      List Char × List Char × Nat).1 = continuationMark from rfl]
    rw [show ((continuationMark, [], 4093) :
      List Char × List Char × Nat).2.1 = [] from rfl]
    rw [if_pos (by omega)]
  rw [hstep1, hstep2, List.nil_append, List.append_nil]

end AiRouter

namespace AiRouter

/-- C9: after `register_response` with any integer-or-missing token
inputs, the stored `prompt_tokens` and `completion_tokens` are
non-negative (negative or `None` inputs are clamped to `0`) and
`tokens_used` equals `prompt_tokens + completion_tokens`. -/
theorem registerResponse_token_invariants (log : MsgLog) (text : List Char)
    (pt ct : Option Int) :
    0 ≤ (registerResponse log text pt ct).promptTokens ∧
    0 ≤ (registerResponse log text pt ct).completionTokens ∧
    (registerResponse log text pt ct).tokensUsed =
      (registerResponse log text pt ct).promptTokens +
        (registerResponse log text pt ct).completionTokens ∧
    (∀ v, pt = some v → v < 0 →
      (registerResponse log text pt ct).promptTokens = 0) ∧
    (pt = none → (registerResponse log text pt ct).promptTokens = 0) ∧
    (∀ v, ct = some v → v < 0 →
      (registerResponse log text pt ct).completionTokens = 0) ∧
    (ct = none → (registerResponse log text pt ct).completionTokens = 0) := by
  refine ⟨le_max_right _ _, le_max_right _ _, rfl, ?_, ?_, ?_, ?_⟩
  · intro v hv hneg
    simp [registerResponse, intOrZero, hv]
    omega
  · intro hv
    simp [registerResponse, intOrZero, hv]
  · intro v hv hneg
    simp [registerResponse, intOrZero, hv]
    omega
  · intro hv
    simp [registerResponse, intOrZero, hv]

/-- Concrete run of C9: a negative prompt count and a missing completion
count are both clamped to zero. -/
theorem registerResponse_token_invariants_witness :
    (registerResponse { messageIndex := 1, userMessage := ['h', 'i'] }
      ['o', 'k'] (some (-5)) none).promptTokens = 0 ∧
    (registerResponse { messageIndex := 1, userMessage := ['h', 'i'] }
      ['o', 'k'] (some (-5)) none).completionTokens = 0 :=
  ⟨(registerResponse_token_invariants
      { messageIndex := 1, userMessage := ['h', 'i'] } ['o', 'k']
      (some (-5)) none).2.2.2.1 (-5) rfl (by decide),
   (registerResponse_token_invariants
      { messageIndex := 1, userMessage := ['h', 'i'] } ['o', 'k']
      (some (-5)) none).2.2.2.2.2.2 rfl⟩

/-- C8: `extract_message` removes every `<think>...</think>` block
(case-insensitively, across newlines) from the first choice's content
and strips surrounding whitespace before returning the message; a
reply consisting only of such blocks yields the empty string. -/
theorem extractMessage_strips_think_blocks
    (d : OaiData) (first : OaiChoice) (rest : List OaiChoice)
    (items : List ThinkItem)
    (hchoices : d.choices = first :: rest)
    (hcontent : first.content = some (renderItems items))
    (hwf : ∀ it ∈ items, wellFormedItem it) :
    extractMessage d =
      .ok (stripL ((items.map plainText).flatten),
        d.usage.totalTokens.getD (d.usage.completionTokens.getD 0)) ∧
    ((∀ it ∈ items, plainText it = []) →
      extractMessage d =
        .ok ([], d.usage.totalTokens.getD (d.usage.completionTokens.getD 0))) := by
  have hmain : extractMessage d =
      .ok (stripL ((items.map plainText).flatten),
        d.usage.totalTokens.getD (d.usage.completionTokens.getD 0)) := by
    simp only [extractMessage, hchoices]
    rw [show stripThinkTags first.content
        = stripL (removeThinkBlocks (renderItems items)) by
      simp [stripThinkTags, hcontent]]
    rw [removeThinkBlocks_renderItems items hwf]
  refine ⟨hmain, fun hempty => ?_⟩
  rw [hmain]
  have hflat : ∀ its : List ThinkItem, (∀ it ∈ its, plainText it = []) →
      (its.map plainText).flatten = ([] : List Char) := by
    intro its h
    induction its with
    | nil => simp
    | cons it its' ih =>
      simp only [List.map_cons, List.flatten_cons]
      rw [h it (by simp)]
      simp only [List.nil_append]
      exact ih (fun x hx => h x (by simp [hx]))
  rw [hflat items hempty]
  rfl

/-- A two-block sample reply used to exercise C8. -/
def thinkSampleText : List Char :=
  "<THINK>\nfoo</think><think>bar</Think>".toList

/-- The sample reply decomposed into its two think blocks. -/
def thinkSampleItems : List ThinkItem :=
  [ThinkItem.block "<THINK>".toList "\nfoo".toList "</think>".toList,
   ThinkItem.block "<think>".toList "bar".toList "</Think>".toList]

/-- The sample API payload wrapping the two-block reply. -/
def thinkSampleData : OaiData :=
  { choices := [{ content := some thinkSampleText }] }

/-- Concrete run of C8: a reply that is exactly two think blocks with
mixed-case tags and an embedded newline extracts to the empty string. -/
theorem extractMessage_strips_think_blocks_witness :
    extractMessage thinkSampleData = .ok ([], 0) := by
  have hitems : thinkSampleText = renderItems thinkSampleItems := by
    decide
  have h := extractMessage_strips_think_blocks
    thinkSampleData { content := some thinkSampleText } []
    thinkSampleItems rfl (congrArg some hitems)
    (by
      intro it hit
      simp only [thinkSampleItems, List.mem_cons, List.mem_singleton] at hit
      rcases hit with h1 | h1 | h1
      · subst h1
        refine ⟨by decide, by decide, by decide⟩
      · subst h1
        refine ⟨by decide, by decide, by decide⟩
      · cases h1)
  exact h.2 (by
    intro it hit
    simp only [thinkSampleItems, List.mem_cons, List.mem_singleton] at hit
    rcases hit with h1 | h1 | h1
    · subst h1; rfl
    · subst h1; rfl
    · cases h1)

/-- C4 (corrected): model selection resolves a truthy `active_model_id`
setting by id; when that setting is truthy but resolves to no config
(unparsable or unknown id), selection falls back directly to the first
available config — the `is_default` preference is consulted only when
the setting is falsy; the selection is empty (the no-model
`RuntimeError`) exactly when no config exists at all. -/
theorem getModelConfig_selection_order (models : List ModelCfg) :
    (∀ s mid m, s ≠ [] → pyInt s = some mid →
      models.find? (fun m' => (m'.id : Int) = mid) = some m →
      getModelConfig models (some s) = some m) ∧
    (∀ s, s ≠ [] →
      (∀ mid, pyInt s = some mid →
        models.find? (fun m' => (m'.id : Int) = mid) = none) →
      getModelConfig models (some s) = models.head?) ∧
    (getModelConfig models none =
      match models.find? (·.isDefault) with
      | some m => some m
      | none => models.head?) ∧
    (∀ aid, getModelConfig models aid = none ↔ models = []) := by
  refine ⟨?_, ?_, ?_, ?_⟩
  · intro s mid m hs hparse hfind
    simp [getModelConfig, hs, hparse, hfind]
  · intro s hs hunres
    cases hparse : pyInt s with
    | none => simp [getModelConfig, hs, hparse]
    | some mid =>
      have := hunres mid hparse
      simp [getModelConfig, hs, hparse, this]
  · rfl
  · intro aid
    constructor
    · intro hnone
      by_contra hne
      cases models with
      | nil => exact hne rfl
      | cons m ms =>
        revert hnone
        simp only [getModelConfig]
        split
        · rename_i x m' heq
          simp
        · rename_i x heq
          simp
    · intro h
      subst h
      cases aid with
      | none => rfl
      | some s =>
        simp only [getModelConfig]
        by_cases hs : s = []
        · subst hs
          rfl
        · cases hparse : pyInt s with
          | none => simp [hs, hparse]
          | some mid => simp [hs, hparse]

/-- Concrete refutation of C4 as stated: with a non-default first config
and a default second config, an `active_model_id` of `"99"` (which
resolves to no config) selects the plain first config, not the
`is_default` one the claim requires. -/
theorem getModelConfig_skips_default_counterexample :
    getModelConfig demoModels (some ['9', '9']) =
      some { id := 1, isDefault := false } ∧
    demoModels.find? (·.isDefault) = some { id := 2, isDefault := true } ∧
    ({ id := 1, isDefault := false } : ModelCfg) ≠
      { id := 2, isDefault := true } := by
  refine ⟨by decide, by decide, by decide⟩

/-- Concrete run of C4's amended selection order: a resolvable setting
selects by id, and an unresolvable one falls back to the first config. -/
theorem getModelConfig_selection_order_witness :
    getModelConfig demoModels (some ['2']) =
      some { id := 2, isDefault := true } ∧
    getModelConfig demoModels (some ['x']) = demoModels.head? :=
  ⟨(getModelConfig_selection_order demoModels).1 ['2'] 2
      { id := 2, isDefault := true } (by decide) (by decide) (by decide),
   (getModelConfig_selection_order demoModels).2.1 ['x'] (by decide)
      (by
        intro mid h
        have hx : pyInt ['x'] = none := by decide
        rw [hx] at h
        cases h)⟩

/-- With no deadline, the join loop never leaves a permanently-alive
thread: it is still joining after any number of iterations. -/
theorem stopJoinLoop_no_deadline_spins (fuel : Nat) :
    ∀ (interval now : ℚ) (joins : Nat),
    stopJoinLoop fuel (fun _ => true) interval none now joins =
      .running (joins + fuel) := by
  induction fuel with
  | zero => intro interval now joins; simp [stopJoinLoop]
  | succ fuel' ih =>
    intro interval now joins
    simp only [stopJoinLoop, if_pos]
    rw [ih interval (now + interval) (joins + 1)]
    congr 1
    omega

/-- C6 (code_bug evaluation): without `max_wait` the join loop of
`stop` has no deadline, so `stop(timeout=0.01)` on a worker that stays
alive keeps joining forever — for every number of iterations it has
neither raised nor returned — contradicting the claimed (and unit
tested) `ShutdownTimeoutError`; the parts of the claim the code does
satisfy also hold: with a bounded `max_wait` the raise occurs and
leaves the handle, event and bot set, and a later `stop` after the
thread has died clears all three. -/
theorem stop_timeout_behaviour (fuel : Nat) :
    stopModel (1 / 100) none fuel
      { thread := some (fun _ => true), stopEventSet := false, botSet := true } =
      .stillJoining ∧
    stopModel 5 none fuel
      { thread := some (fun _ => false), stopEventSet := true, botSet := true } =
      .returned { thread := none, stopEventSet := false, botSet := false } ∧
    stopModel (1 / 100) (some (1 / 20)) (fuel + 2)
      { thread := some (fun _ => true), stopEventSet := false, botSet := true } =
      .raised { thread := some (fun _ => true), stopEventSet := true,
                botSet := true } := by
  refine ⟨?_, ?_, ?_⟩
  · simp only [stopModel]
    rw [if_pos trivial]
    rw [show (Option.map (fun mw => max mw 0) none : Option ℚ) = none by rfl]
    rw [stopJoinLoop_no_deadline_spins fuel _ 0 0]
  · rfl
  · simp only [stopModel]
    rw [if_pos trivial]
    have hd : (Option.map (fun mw => max mw 0) (some (1 / 20)) : Option ℚ)
        = some (1 / 20) := by
      show some (max (1 / 20 : ℚ) 0) = some (1 / 20)
      norm_num
    rw [hd]
    have h1 : stopJoinLoop (fuel + 2) (fun _ => true) (max (1 / 100) (1 / 10))
        (some (1 / 20)) 0 0 = .broke 1 := by
      have hmax : (max (1 / 100 : ℚ) (1 / 10)) = (1 / 10 : ℚ) := by norm_num
      rw [hmax]
      show stopJoinLoop (fuel + 1 + 1) (fun _ => true) (1 / 10) (some (1 / 20)) 0 0
          = .broke 1
      rw [stopJoinLoop]
      rw [if_pos rfl]
      rw [if_neg (by norm_num)]
      have hmin : min (1 / 10 : ℚ) ((1 / 20 : ℚ) - 0) = (1 / 20 : ℚ) := by norm_num
      rw [hmin]
      cases fuel with
      | zero =>
        rw [stopJoinLoop]
        rw [if_pos rfl]
        rw [if_pos (by norm_num)]
      | succ fuel'' =>
        rw [stopJoinLoop]
        rw [if_pos rfl]
        rw [if_pos (by norm_num)]
    rw [h1]

/-- The freshly inserted log row carries no model id, so it does not
change which row provides the per-model ceiling. -/
theorem lastModelEntry_append_blank (logs : List MsgLog) (n : Nat)
    (text : List Char) :
    lastModelEntry (logs ++ [{ messageIndex := n, userMessage := text }]) =
      lastModelEntry logs := by
  simp [lastModelEntry, List.filter_append]

/-- The freshly inserted log row carries zero tokens, so it does not
change the dialog's pre-turn total. -/
theorem usage_append_blank (logs : List MsgLog) (n : Nat) (text : List Char) :
    (calculateDialogUsage (logs ++ [{ messageIndex := n, userMessage := text }])
      none).2.2 = (calculateDialogUsage logs none).2.2 := by
  simp [calculateDialogUsage, List.foldl_append]

/-- Inserting the turn's blank log row leaves the effective limit
unchanged. -/
theorem determineLimit_append_blank (configured : Option Int)
    (logs : List MsgLog) (models : List ModelCfg) (n : Nat)
    (text : List Char) :
    determineEffectiveDialogLimit configured
      (logs ++ [{ messageIndex := n, userMessage := text }]) models none =
      determineEffectiveDialogLimit configured logs models none := by
  simp only [determineEffectiveDialogLimit, lastModelEntry_append_blank]

/-- C1: with an effective token limit configured and the dialog's
pre-turn cumulative total already at or above it, `_handle_message`
sends the limit-exceeded notice and returns without calling the LLM
backend; and the effective limit the check uses is exactly the minimum
of the positive global `dialog_token_limit` setting and the positive
per-model ceiling, non-positive values ignored. -/
theorem handleMessage_budget_short_circuit (env : HandlerEnv)
    (text : List Char) (l : Int)
    (hp : isBotPaused env.botPausedSetting = false)
    (ha : env.userActive = true)
    (hl : determineEffectiveDialogLimit env.dialogTokenLimitSetting
      (logsUsed env) env.models none = some l)
    (ht : l ≤ (calculateDialogUsage (logsUsed env) none).2.2) :
    (handleMessage env text).limitNotice =
      some (l, (calculateDialogUsage (logsUsed env) none).2.2) ∧
    (handleMessage env text).backendCalled = false ∧
    (∀ (c : Option Int) (lgs : List MsgLog) (ms : List ModelCfg),
      determineEffectiveDialogLimit c lgs ms none =
        specEffectiveLimit c (modelCeilingOf lgs ms)) := by
  have hlimits : determineEffectiveDialogLimit env.dialogTokenLimitSetting
      (logsUsed env ++ [{ messageIndex := (logsUsed env).length + 1, userMessage := text }]) env.models none = some l := by
    rw [determineLimit_append_blank]
    exact hl
  have htotal : (calculateDialogUsage
      (logsUsed env ++ [{ messageIndex := (logsUsed env).length + 1, userMessage := text }]) none).2.2 =
      (calculateDialogUsage (logsUsed env) none).2.2 :=
    usage_append_blank _ _ _
  have hres : handleMessage env text =
      { dialogLookedUp := true, dialogCreated := !env.hasActiveDialog,
        logCreated := true,
        titleSet := if (logsUsed env).length + 1 = 1 ∧ text ≠ [] then
            some ((normalizeWs text).take 255) else none,
        limitNotice := some (l, (calculateDialogUsage (logsUsed env) none).2.2),
        backendCalled := false } := by
    simp only [handleMessage, hp, Bool.false_eq_true, if_false, ha,
      Bool.not_true, Bool.false_eq_true, if_false, hlimits, htotal]
    rw [if_pos (htotal ▸ ht)]
  refine ⟨by rw [hres], by rw [hres], ?_⟩
  intro c lgs ms
  simp only [determineEffectiveDialogLimit, specEffectiveLimit, modelCeilingOf]
  have hbind : ∀ x : Option Int,
      (Option.bind x fun v => if 0 < v then some v else none) =
        match x with
        | some v => if 0 < v then some v else none
        | none => none := by
    intro x
    cases x <;> rfl
  rw [hbind, hbind]
  cases hlast : lastModelEntry lgs with
  | none =>
    cases c with
    | none => rfl
    | some v =>
      by_cases hv : v ≤ 0
      · have h0 : ¬ (0 < v) := by omega
        simp [hv, h0]
      · have h0 : 0 < v := by omega
        simp [hv, h0]
  | some e =>
    cases hmid : e.modelId with
    | none =>
      try simp only [hmid]
      cases c with
      | none => rfl
      | some v =>
        by_cases hv : v ≤ 0
        · have h0 : ¬ (0 < v) := by omega
          simp [hv, h0]
        · have h0 : 0 < v := by omega
          simp [hv, h0]
    | some mid =>
      try simp only [hmid]
      cases hfind : ms.find? (fun m => m.id = mid) with
      | none =>
        try simp only [hfind]
        cases c with
        | none => rfl
        | some v =>
          by_cases hv : v ≤ 0
          · have h0 : ¬ (0 < v) := by omega
            simp [hv, h0]
          · have h0 : 0 < v := by omega
            simp [hv, h0]
      | some m =>
        try simp only [hfind]
        have hio : intOrZero (some m.dialogTokenLimit) = m.dialogTokenLimit := rfl
        rw [hio]
        cases c with
        | none =>
          by_cases hm : 0 < m.dialogTokenLimit
          · simp [hm]
          · simp [hm]
        | some v =>
          by_cases hv : v ≤ 0
          · have h0 : ¬ (0 < v) := by omega
            by_cases hm : 0 < m.dialogTokenLimit
            · simp [hv, h0, hm]
            · simp [hv, h0, hm]
          · have h0 : 0 < v := by omega
            by_cases hm : 0 < m.dialogTokenLimit
            · simp [hv, h0, hm]
            · simp [hv, h0, hm]

/-- A dialog that has already consumed exactly its 20000-token
effective limit. -/
def budgetEnv : HandlerEnv :=
  { dialogTokenLimitSetting := some 20000,
    hasActiveDialog := true,
    logs := [{ messageIndex := 1, userMessage := "hi".toList,
               modelId := some 7, tokensUsed := 20000 }],
    models := [{ id := 7, dialogTokenLimit := 30000 }] }

/-- Concrete run of C1: at cumulative 20000 tokens against an effective
limit of 20000 (min of the 20000 setting and the 30000 model ceiling),
the next message produces the limit notice and no backend call. -/
theorem handleMessage_budget_short_circuit_witness :
    (handleMessage budgetEnv "hello".toList).limitNotice =
      some (20000, 20000) ∧
    (handleMessage budgetEnv "hello".toList).backendCalled = false := by
  have h := handleMessage_budget_short_circuit budgetEnv "hello".toList 20000
    (by decide) rfl (by decide) (by decide)
  refine ⟨?_, h.2.1⟩
  rw [h.1]
  rfl

/-- C10: a `bot_paused` setting whose trimmed, lower-cased value is one
of `1`, `true`, `yes`, `on` makes every inbound text message answer
only with the configured pause message (the built-in default when the
configured one is empty), returning before any dialog lookup,
message-log creation, or backend call; any other value lets the
message be processed normally. -/
theorem handleMessage_pause_gate (env : HandlerEnv) (text : List Char) :
    (isBotPaused env.botPausedSetting = true ↔
      (stripL (env.botPausedSetting.getD "0".toList)).map pyLower ∈
        pauseTruthyValues) ∧
    (isBotPaused env.botPausedSetting = true →
      handleMessage env text =
        { pausedReply := some (getPauseMessage env.pauseMessageSetting) }) ∧
    (∀ pmsg : Option (List Char), stripL (pmsg.getD []) = [] →
      getPauseMessage pmsg = defaultPauseMessage) ∧
    (∀ pmsg : Option (List Char), stripL (pmsg.getD []) ≠ [] →
      getPauseMessage pmsg = stripL (pmsg.getD [])) ∧
    (isBotPaused env.botPausedSetting = false →
      (handleMessage env text).pausedReply = none) := by
  refine ⟨?_, ?_, ?_, ?_, ?_⟩
  · simp [isBotPaused, List.elem_iff]
  · intro hpaused
    simp [handleMessage, hpaused]
  · intro pmsg hempty
    simp [getPauseMessage, hempty]
  · intro pmsg hne
    simp [getPauseMessage, hne]
  · intro hnot
    simp only [handleMessage, hnot, Bool.false_eq_true, if_false]
    by_cases hu : env.userActive
    · simp only [hu, Bool.not_true, Bool.false_eq_true, if_false]
      cases determineEffectiveDialogLimit env.dialogTokenLimitSetting
          (logsUsed env ++ [{ messageIndex := (logsUsed env).length + 1, userMessage := text }])
          env.models none with
      | none => rfl
      | some l =>
        by_cases hle : l ≤ (calculateDialogUsage (logsUsed env ++ [{ messageIndex := (logsUsed env).length + 1, userMessage := text }]) none).2.2
        · simp [hle]
        · simp [hle]
    · simp [hu]

/-- Concrete run of C10: with `bot_paused` set to `" TRUE "` and no
configured pause message, the handler answers with the default pause
notice and touches nothing else; with `bot_paused` set to `"off"` the
message is processed normally. -/
theorem handleMessage_pause_gate_witness :
    handleMessage { botPausedSetting := some " TRUE ".toList } "hi".toList =
      { pausedReply := some defaultPauseMessage } ∧
    (handleMessage { botPausedSetting := some "off".toList }
      "hi".toList).pausedReply = none := by
  constructor
  · have h := (handleMessage_pause_gate
      { botPausedSetting := some " TRUE ".toList } "hi".toList).2.1 (by decide)
    rw [h]
    rfl
  · exact (handleMessage_pause_gate
      { botPausedSetting := some "off".toList } "hi".toList).2.2.2.2 (by decide)

/-- C7 (corrected): on the first turn with a non-empty text the stored
dialog title is the whitespace-normalized text capped at 255 characters
with no ellipsis; the ellipsis appears only in the history-display
formatter, which caps the prepared title at 40 characters and appends
`…`. -/
theorem handleMessage_title_cap_and_display (env : HandlerEnv)
    (text : List Char)
    (hp : isBotPaused env.botPausedSetting = false)
    (ha : env.userActive = true)
    (hfirst : logsUsed env = [])
    (htext : text ≠ []) :
    (handleMessage env text).titleSet = some ((normalizeWs text).take 255) ∧
    (∀ (title : List Char) (dialogId : Nat) (logs : List MsgLog),
      stripL title ≠ [] →
      (stripL title).map pyLower ∉ placeholderTitles →
      40 < (normalizeWs (stripL title)).length →
      formatDialogTitle title dialogId logs =
        (normalizeWs (stripL title)).take 40 ++ ['…']) := by
  refine ⟨handleMessage_titleSet_first env text hp ha hfirst htext, ?_⟩
  intro title dialogId logs hbase hph hlen
  simp only [formatDialogTitle]
  have h1 : (if (stripL title ≠ [] ∧ (stripL title).map pyLower ∈ placeholderTitles)
      then ([] : List Char) else stripL title) = stripL title :=
    if_neg (fun hcon => hph hcon.2)
  rw [h1]
  rw [if_neg hbase]
  rw [if_pos hlen]
  rw [if_neg (by simp)]

/-- Concrete refutation of C7 as stated: a 300-character first message
stores a title truncated to 255 characters with no ellipsis appended,
although the text had to be truncated. -/
theorem handleMessage_title_no_ellipsis_counterexample :
    (handleMessage {} (List.replicate 300 'a')).titleSet =
      some (List.replicate 255 'a') ∧
    (List.replicate 255 'a').length <
      (normalizeWs (List.replicate 300 'a')).length ∧
    (List.replicate 255 'a').getLast? ≠ some '…' := by
  have hne : (List.replicate 300 'a') ≠ [] := by
    apply List.ne_nil_of_length_pos
    simp only [List.length_replicate]
    omega
  have hnorm : normalizeWs (List.replicate 300 'a') = List.replicate 300 'a' :=
    normalizeWs_no_space _ hne
      (by
        intro c hc
        have hca := List.eq_of_mem_replicate hc
        subst hca
        rfl)
  refine ⟨?_, ?_, ?_⟩
  · rw [handleMessage_titleSet_first {} _ (by decide) rfl rfl hne, hnorm]
    rw [List.take_replicate]
    norm_num
  · rw [hnorm]
    simp only [List.length_replicate]
    omega
  · rw [show (List.replicate 255 'a') = List.replicate 254 'a' ++ ['a'] by
      rw [← List.replicate_succ']]
    rw [List.getLast?_concat]
    decide

/-- Concrete run of C7's amended behaviour: a padded two-word first
message stores its normalized form unchanged, and the display formatter
caps a 50-character title at 40 characters plus `…`. -/
theorem handleMessage_title_cap_and_display_witness :
    (handleMessage {} "  Привет   мир  ".toList).titleSet =
      some "Привет мир".toList ∧
    formatDialogTitle (List.replicate 50 'b') 3 [] =
      List.replicate 40 'b' ++ ['…'] := by
  have h := handleMessage_title_cap_and_display {}
    "  Привет   мир  ".toList (by decide) rfl rfl (by simp)
  have hne50 : (List.replicate 50 'b') ≠ [] := by
    apply List.ne_nil_of_length_pos
    simp only [List.length_replicate]
    omega
  constructor
  · rw [h.1]
    have hn : normalizeWs "  Привет   мир  ".toList = "Привет мир".toList := by
      simp [normalizeWs, pySplit, pySpace, List.intercalate]
    rw [hn]
    rfl
  · have hstrip : stripL (List.replicate 50 'b') = List.replicate 50 'b' := by
      decide
    have hn : normalizeWs (List.replicate 50 'b') = List.replicate 50 'b' :=
      normalizeWs_no_space _ hne50
        (by
          intro c hc
          have hcb := List.eq_of_mem_replicate hc
          subst hcb
          rfl)
    have h2 := h.2 (List.replicate 50 'b') 3 []
      (by rw [hstrip]; exact hne50)
      (by rw [hstrip]; decide)
      (by rw [hstrip, hn]; simp only [List.length_replicate]; omega)
    rw [h2, hstrip, hn, List.take_replicate]
    norm_num

/-- C3: at most one dialog per user is active, and every
dialog-mutating operation preserves this: message handling creates a
dialog only when no active one exists, the new-dialog callback closes
the current active dialog before creating its replacement, and
activating a chosen dialog deactivates every other active dialog of
the user, setting its `ended_at`. -/
theorem dialog_at_most_one_active (db : List DialogRow)
    (now u newId targetId v : Nat)
    (hinv : ∀ w, activeCount db w ≤ 1) :
    activeCount (ensureDialogOnMessage now u newId db) v ≤ 1 ∧
    activeCount (handleNewDialog now u newId db) v ≤ 1 ∧
    ((∀ d ∈ db, d.id = targetId → d.userId = u) →
      db.countP (fun d => d.id == targetId) ≤ 1 →
      activeCount (activateDialog now u targetId db) v ≤ 1) ∧
    (∀ d ∈ db, activeFor u d = true → d.id ≠ targetId →
      { d with isActive := false, endedAt := some now } ∈
        activateDialog now u targetId db) := by
  have hnewFor : ∀ w, activeFor w (newDialogRow u newId now) =
      (u == w) := by
    intro w
    simp [activeFor, newDialogRow]
  refine ⟨?_, ?_, ?_, ?_⟩
  · cases hact : getActiveDialog u db with
    | some cur =>
      simp only [ensureDialogOnMessage, hact]
      exact hinv v
    | none =>
      have h0 : activeCount db u = 0 := getActiveDialog_none hact
      simp only [ensureDialogOnMessage, hact, activeCount,
        List.countP_append, List.countP_singleton, hnewFor]
      by_cases hv : u = v
      · subst hv
        rw [show activeCount db u = db.countP (activeFor u) from rfl] at h0
        simp [h0]
      · have : (u == v) = false := by
          simp [hv]
        rw [this]
        simp only [Bool.false_eq_true, if_false, Nat.add_zero]
        exact hinv v
  · cases hact : getActiveDialog u db with
    | none =>
      have h0 : activeCount db u = 0 := getActiveDialog_none hact
      simp only [handleNewDialog, hact, activeCount, List.countP_append,
        List.countP_singleton, hnewFor]
      by_cases hv : u = v
      · subst hv
        rw [show activeCount db u = db.countP (activeFor u) from rfl] at h0
        simp [h0]
      · have : (u == v) = false := by
          simp [hv]
        rw [this]
        simp only [Bool.false_eq_true, if_false, Nat.add_zero]
        exact hinv v
    | some cur =>
      obtain ⟨hcurmem, hcuract⟩ := getActiveDialog_mem hact
      have hkey : ∀ d ∈ db, activeFor u d = true → d.id = cur.id := by
        intro d hd hdact
        have hdfil : d ∈ db.filter (activeFor u) := List.mem_filter.mpr ⟨hd, hdact⟩
        have hcurfil : cur ∈ db.filter (activeFor u) :=
          List.mem_filter.mpr ⟨hcurmem, hcuract⟩
        have hlen : (db.filter (activeFor u)).length ≤ 1 := by
          have := hinv u
          rw [activeCount, List.countP_eq_length_filter] at this
          exact this
        rw [mem_of_length_le_one hlen hdfil hcurfil]
      simp only [handleNewDialog, hact, activeCount, List.countP_append,
        List.countP_singleton, hnewFor, List.countP_map]
      by_cases hv : u = v
      · subst hv
        have hzero : db.countP
            ((activeFor u) ∘ fun d =>
              if d.id = cur.id then closeDialog now d else d) = 0 := by
          rw [List.countP_eq_zero]
          intro d hd
          by_cases hid : d.id = cur.id
          · simp [hid, closeDialog, activeFor]
          · simp only [Function.comp, if_neg hid]
            intro hdact
            exact hid (hkey d hd hdact)
        rw [hzero]
        simp
      · have hle : db.countP
            ((activeFor v) ∘ fun d =>
              if d.id = cur.id then closeDialog now d else d) ≤
            db.countP (activeFor v) := by
          apply List.countP_mono_left
          intro d hd
          by_cases hid : d.id = cur.id
          · simp [hid, closeDialog, activeFor]
          · simp [Function.comp, if_neg hid]
        have : (u == v) = false := by
          simp [hv]
        rw [this]
        simp only [Bool.false_eq_true, if_false, Nat.add_zero]
        exact le_trans hle (hinv v)
  · intro htid hcount
    simp only [activateDialog, activeCount, List.countP_map]
    by_cases hv : u = v
    · subst hv
      have hle : db.countP
          ((activeFor u) ∘ fun d =>
            if d.id = targetId then { d with isActive := true, endedAt := none }
            else if activeFor u d then closeDialog now d else d) ≤
          db.countP (fun d => d.id == targetId) := by
        apply List.countP_mono_left
        intro d hd hact'
        by_cases hid : d.id = targetId
        · simp [hid]
        · exfalso
          simp only [Function.comp, if_neg hid] at hact'
          by_cases hdact : activeFor u d = true
          · rw [if_pos hdact] at hact'
            simp [closeDialog, activeFor] at hact'
          · rw [if_neg (by simpa using hdact)] at hact'
            exact hdact hact'
      exact le_trans hle hcount
    · have hle : db.countP
          ((activeFor v) ∘ fun d =>
            if d.id = targetId then { d with isActive := true, endedAt := none }
            else if activeFor u d then closeDialog now d else d) ≤
          db.countP (activeFor v) := by
        apply List.countP_mono_left
        intro d hd hact'
        by_cases hid : d.id = targetId
        · exfalso
          simp only [Function.comp, if_pos hid] at hact'
          have huid : d.userId = u := htid d hd hid
          simp only [activeFor, Bool.and_eq_true, beq_iff_eq] at hact'
          exact hv (huid ▸ hact'.1)
        · simp only [Function.comp, if_neg hid] at hact'
          by_cases hdact : activeFor u d = true
          · rw [if_pos hdact] at hact'
            simp [closeDialog, activeFor] at hact'
          · rw [if_neg (by simpa using hdact)] at hact'
            exact hact'
      exact le_trans hle (hinv v)
  · intro d hd hdact hid
    have : (if d.id = targetId then { d with isActive := true, endedAt := none }
        else if activeFor u d then closeDialog now d else d) =
        { d with isActive := false, endedAt := some now } := by
      rw [if_neg hid, if_pos hdact]
      rfl
    rw [activateDialog]
    exact this ▸ List.mem_map_of_mem _ hd

/-- A small dialog table: user 5 has one active and one closed dialog,
user 6 has one active dialog. -/
def demoDialogs : List DialogRow :=
  [{ id := 1, userId := 5, isActive := true, startedAt := 10 },
   { id := 2, userId := 5, isActive := false, startedAt := 20, endedAt := some 30 },
   { id := 3, userId := 6, isActive := true, startedAt := 15 }]

/-- Concrete run of C3: all three mutating operations keep user 5 at a
single active dialog, and activating dialog 2 closes dialog 1 with
`ended_at` set. -/
theorem dialog_at_most_one_active_witness :
    activeCount (ensureDialogOnMessage 40 5 9 demoDialogs) 5 ≤ 1 ∧
    activeCount (handleNewDialog 40 5 9 demoDialogs) 5 ≤ 1 ∧
    activeCount (activateDialog 40 5 2 demoDialogs) 5 ≤ 1 ∧
    ({ id := 1, userId := 5, isActive := false, startedAt := 10,
       endedAt := some 40 } : DialogRow) ∈ activateDialog 40 5 2 demoDialogs := by
  have hinv : ∀ w, activeCount demoDialogs w ≤ 1 := by
    intro w
    by_cases h5 : w = 5
    · subst h5
      decide
    · by_cases h6 : w = 6
      · subst h6
        decide
      · have e5 : ((5 : Nat) == w) = false := beq_eq_false_iff_ne.mpr (Ne.symm h5)
        have e6 : ((6 : Nat) == w) = false := beq_eq_false_iff_ne.mpr (Ne.symm h6)
        simp [activeCount, demoDialogs, activeFor, e5, e6]
  have h := dialog_at_most_one_active demoDialogs 40 5 9 2 5 hinv
  exact ⟨h.1, h.2.1, h.2.2.1 (by decide) (by decide),
    h.2.2.2 { id := 1, userId := 5, isActive := true, startedAt := 10 }
      (by decide) (by decide) (by decide)⟩

/-- C2 (corrected): the segmenter emits a fitting non-empty text as
one unchanged segment; every segment, markers included, is at most
4096 characters; each segment is its core wrapped in optional
continuation markers; concatenating the cores reproduces the original
reply up to the whitespace dropped at split boundaries — exactly when
the reply contains no whitespace; and when the token limit was not
exceeded the keyboard goes on exactly the last segment. -/
theorem prepareResponseChunks_segmentation (text : List Char) :
    (text ≠ [] → text.length ≤ 4096 → prepareResponseChunks text = [text]) ∧
    (∀ ch ∈ prepareResponseChunks text, ch.length ≤ 4096) ∧
    WsSub (prepareResponseCores text).flatten text ∧
    ((∀ c ∈ text, pySpace c = false) →
      (prepareResponseCores text).flatten = text) ∧
    (∀ p ∈ prepareResponseChunksAux text,
      ∃ pf sf, p.2 = pf ++ p.1 ++ sf ∧
        (pf = [] ∨ pf = continuationMark) ∧
        (sf = [] ∨ sf = continuationMark)) ∧
    (prepareResponseChunks text ≠ [] →
      segmentMarkupFlags (prepareResponseChunks text) false =
        List.replicate ((prepareResponseChunks text).length - 1) false ++
          [true]) := by
  have hws : WsSub (prepareResponseCores text).flatten text ∧
      (∀ p ∈ prepareResponseChunksAux text,
        p.2.length ≤ 4096 ∧
        ∃ pf sf, p.2 = pf ++ p.1 ++ sf ∧
          (pf = [] ∨ pf = continuationMark) ∧
          (sf = [] ∨ sf = continuationMark)) := by
    by_cases h0 : text = []
    · subst h0
      exact ⟨by simpa [prepareResponseCores, prepareResponseChunksAux]
          using WsSub.nil,
        by simp [prepareResponseChunksAux]⟩
    · by_cases h1 : text.length ≤ 4096
      · constructor
        · simpa [prepareResponseCores, prepareResponseChunksAux, h0, h1]
            using wsSub_refl text
        · intro p hp
          simp only [prepareResponseChunksAux, if_neg h0, if_pos h1,
            List.mem_singleton] at hp
          subst hp
          exact ⟨by simpa using h1, [], [], by simp, Or.inl rfl, Or.inl rfl⟩
      · have hspec := chunksLoopAux_spec text.length text true (le_refl _)
        constructor
        · simpa [prepareResponseCores, prepareResponseChunksAux, h0, h1]
            using hspec.1
        · intro p hp
          simp only [prepareResponseChunksAux, if_neg h0, if_neg h1] at hp
          exact hspec.2 p hp
  refine ⟨?_, ?_, hws.1, ?_, fun p hp => (hws.2 p hp).2, ?_⟩
  · intro h0 h1
    simp [prepareResponseChunks, prepareResponseChunksAux, h0, h1]
  · intro ch hch
    obtain ⟨p, hp, hpe⟩ := List.mem_map.mp hch
    rw [← hpe]
    exact (hws.2 p hp).1
  · intro hns
    exact wsSub_eq_of_no_ws hws.1 hns
  · intro hne
    exact segmentMarkupFlags_last _ hne

theorem stripClaimMarkers_pair (x y : List Char) :
    stripClaimMarkers [x, y] =
      x.take (x.length - continuationMark.length) ++
        (y.drop continuationMark.length ++ []) := rfl

/-- Concrete refutation of C2 as stated: on a 5000-character reply of
4000 `a`s, a space and 999 `b`s the segmenter splits at the space and
trims it away, so concatenating the segments' core text after
stripping the injected continuation markers loses the space and does
not reproduce the reply. -/
theorem prepareResponseChunks_roundtrip_counterexample :
    prepareResponseChunks badChunkText =
      [List.replicate 4000 'a' ++ continuationMark,
       continuationMark ++ List.replicate 999 'b'] ∧
    stripClaimMarkers (prepareResponseChunks badChunkText) ≠ badChunkText := by
  have hblen : badChunkText.length = 5000 := by
    rw [badChunkText, List.length_append, List.length_cons,
      List.length_replicate, List.length_replicate]
  have hbne : badChunkText ≠ [] := by
    apply List.ne_nil_of_length_pos
    rw [hblen]
    omega
  have haux : prepareResponseChunksAux badChunkText =
      [(List.replicate 4000 'a',
        List.replicate 4000 'a' ++ continuationMark),
       (List.replicate 999 'b',
        continuationMark ++ List.replicate 999 'b')] := by
    unfold prepareResponseChunksAux
    rw [if_neg hbne, if_neg (by rw [hblen]; omega)]
    exact chunksLoopAux_badChunkText
  have hprep : prepareResponseChunks badChunkText =
      [List.replicate 4000 'a' ++ continuationMark,
       continuationMark ++ List.replicate 999 'b'] := by
    rw [prepareResponseChunks, haux]
    rfl
  refine ⟨hprep, ?_⟩
  rw [hprep]
  have htakeA : (List.replicate 4000 'a' ++ continuationMark).take
      ((List.replicate 4000 'a' ++ continuationMark).length -
        continuationMark.length) = List.replicate 4000 'a' := by
    rw [List.length_append, List.length_replicate]
    rw [show (4000 + continuationMark.length - continuationMark.length : Nat)
      = 4000 from rfl]
    rw [List.take_append_eq_append_take]
    rw [List.take_of_length_le (by rw [List.length_replicate])]
    rw [show (4000 - (List.replicate 4000 'a').length : Nat) = 0 by
      rw [List.length_replicate]]
    rw [List.take_zero, List.append_nil]
  have hdropB : (continuationMark ++ List.replicate 999 'b').drop
      continuationMark.length = List.replicate 999 'b' := by
    rw [List.drop_append_eq_append_drop]
    rw [List.drop_of_length_le (le_refl _)]
    rw [show (continuationMark.length - continuationMark.length : Nat) = 0
      from rfl]
    rw [List.drop_zero, List.nil_append]
  have hstrip : stripClaimMarkers
      [List.replicate 4000 'a' ++ continuationMark,
       continuationMark ++ List.replicate 999 'b'] =
      List.replicate 4000 'a' ++ (List.replicate 999 'b' ++ []) := by
    rw [stripClaimMarkers_pair, htakeA, hdropB]
  rw [hstrip]
  intro heq
  have hlen := congrArg List.length heq
  rw [hblen, List.length_append, List.length_append,
    List.length_replicate, List.length_replicate] at hlen
  simp only [List.length_nil] at hlen
  omega

/-- Concrete run of C2's amended segmentation facts on a short reply:
one unchanged segment, exact core round trip, and the keyboard flag on
exactly that segment. -/
theorem prepareResponseChunks_segmentation_witness :
    prepareResponseChunks "hello".toList = ["hello".toList] ∧
    (prepareResponseCores "hello".toList).flatten = "hello".toList ∧
    segmentMarkupFlags (prepareResponseChunks "hello".toList) false =
      [true] := by
  have h := prepareResponseChunks_segmentation "hello".toList
  have h1 : prepareResponseChunks "hello".toList = ["hello".toList] :=
    h.1 (by decide) (by decide)
  refine ⟨h1, ?_, ?_⟩
  · exact h.2.2.2.1 (by decide)
  · rw [h.2.2.2.2.2 (by rw [h1]; decide)]
    rw [h1]
    rfl

/-- C5 (corrected): `send_chat_request` never retries: it contacts
exactly the endpoint picked for the model, and a 400-class failure from
that endpoint surfaces as the wrapped error with no second request. -/
theorem sendChatRequest_no_retry (http : Endpoint → HttpOutcome)
    (cfg : OaiModelConfig) :
    (sendChatRequest http cfg).2 = [pickEndpointForModel cfg] ∧
    (∀ status errorBody,
      http (pickEndpointForModel cfg) = .failure status errorBody →
      400 ≤ status →
      (sendChatRequest http cfg).1 = .error ()) := by
  refine ⟨rfl, ?_⟩
  intro status errorBody hfail hst
  simp [sendChatRequest, performRequest, hfail, hst]

/-- An HTTP oracle for C5: the chat endpoint answers 400 with a
wrong-endpoint hint, the responses endpoint would succeed. -/
def wrongEndpointOracle : Endpoint → HttpOutcome
  | .chat =>
    .failure 400 "This model is only supported in v1/responses and not in v1/chat/completions.".toList
  | .responses => .success "ok".toList

/-- A config for C5 whose explicit `endpoint` field forces the chat
endpoint for a model on the known responses list. -/
def responsesOnlyCfg : OaiModelConfig :=
  { endpoint := some "chat".toList, model := "o1-mini".toList }

/-- Concrete refutation of C5 as stated: the primary (chat) endpoint
fails with a 400 whose payload hints at the wrong endpoint and whose
model is on the known-responses list, yet the client fails the turn
after exactly that one request — it never contacts the alternate
endpoint that would have succeeded. -/
theorem sendChatRequest_no_retry_counterexample :
    pickEndpointForModel responsesOnlyCfg = .chat ∧
    wrongEndpointOracle .responses = .success "ok".toList ∧
    sendChatRequest wrongEndpointOracle responsesOnlyCfg =
      (.error (), [.chat]) := by
  refine ⟨by decide, by decide, by rfl⟩

/-- Concrete run of C5's amended no-retry behaviour at the same input. -/
theorem sendChatRequest_no_retry_witness :
    (sendChatRequest wrongEndpointOracle responsesOnlyCfg).2 = [.chat] ∧
    (sendChatRequest wrongEndpointOracle responsesOnlyCfg).1 = .error () := by
  have h := sendChatRequest_no_retry wrongEndpointOracle responsesOnlyCfg
  refine ⟨by simpa using h.1, ?_⟩
  exact h.2 400
    "This model is only supported in v1/responses and not in v1/chat/completions.".toList
    (by decide) (by decide)

end AiRouter
